import Mathlib

/-!
# GrandShop storefront script (`static/js/main.js`)

A shallow embedding of the storefront's client-side script and proofs of the
properties its specification states.

The script is UI glue: every operation is a DOM mutation, a timer or one HTTP
request.  The embedding therefore makes the browser state explicit:

* `Document` holds the elements the script binds to (the CSRF field, the search
  input, the suggestion panel, the cart badge, the brand grid) and, in document
  order, the elements the toast and form code looks up by id or appends to the
  body;
* `World` adds the script's own variables, the virtual clock and the pending
  timers, and the logs of what the script hands to its collaborators (HTTP
  requests, calls to `fetchSearchSuggestions`, form submissions, console).

Every JavaScript function is a function `World → ... → World` with the same
name; asynchronous continuations (timer callbacks, promise handlers) are
separate functions run by the event loop (`elapse`, `step`).

What the embedding fixes about the browser:

* the elements the script binds to are distinct elements of the page, and the
  body elements of `Document.body` are never moved or removed by the script, so
  a position in that list identifies an element; child nodes carry an identity
  `nid`, fresh for every created node;
* the `innerHTML` setter of a toast runs the HTML fragment parser.  The
  embedding reads a subset of HTML on which the parser's result is plain: text
  without `<`, `&`, carriage return or NUL, and well nested `div`, `span` and
  `button` elements with double-quoted attributes.  For other markup the nodes
  of the toast are `none`: the embedding says nothing about them.  The markup of
  the brand grid is fixed, and is kept as the string the script built;
* `document.getElementById` searches the body elements; it finds what the
  browser finds as long as the first element with the id is not a node inside
  a toast (`lookupOk`), which every operation of the script preserves;
* numbers are IEEE 754 doubles and print as Number::toString prints them; the
  `length` of a string counts UTF-16 code units and `trim` strips the
  ECMAScript white space;
* the clock is virtual: `setTimeout` hands out increasing ids, and a timer
  fires when the clock reaches its due time, timers of equal due time in the
  order of their registration;
* `fetchSearchSuggestions`, `selectBrand`, `bootstrap` and the server are
  collaborators outside the file: calls to them are logged, not executed;
* the variables `selectedBrand`, `selectedModel`, `selectedYear` and
  `selectedChassis` are never read or written by the script and are left out.
-/

set_option autoImplicit false

namespace GrandShop

/-! ## JavaScript values and strings -/

/-- A JavaScript Number: an IEEE 754 double.  A finite one is `m * 2 ^ (e - 1074)`
with a 53-bit `m`; several pairs may stand for the same value. -/
inductive JsNumber where
  | nan
  | inf (neg : Bool)
  | fin (neg : Bool) (m : Fin 9007199254740992) (e : Fin 2046)
deriving DecidableEq, Repr

/-- Shift the significand up until it has 53 bits or the exponent is the least
one: the pair that names the double's neighbours. -/
def normalize : Nat → Nat → Nat → Nat × Nat
  | 0, m, e => (m, e)
  | fuel + 1, m, e =>
    if m < 4503599627370496 ∧ 0 < e then normalize fuel (2 * m) (e - 1) else (m, e)

/-- Whether the decimal `s * 10 ^ p` rounds to the double `m * 2 ^ (e - 1074)`
(`m`, `e` normalized): it lies between the midpoints to the neighbouring
doubles, a midpoint counting when `m` is even.  All sides are scaled by
`2 ^ 1076`. -/
def roundsTo (m e : Nat) (s : Nat) (p : Int) : Bool :=
  let hi := (2 * m + 1) * 2 ^ (e + 1)
  let lo := if m = 4503599627370496 ∧ 0 < e then (4 * m - 1) * 2 ^ e else (2 * m - 1) * 2 ^ (e + 1)
  let num := s * 10 ^ p.toNat * 2 ^ 1076
  let den := 10 ^ (-p).toNat
  if m % 2 = 0 then decide (lo * den ≤ num) && decide (num ≤ hi * den)
  else decide (lo * den < num) && decide (num < hi * den)

/-- The least `n`, searched upwards from `n`, with `m * 2 ^ (e - 1074) < 10 ^ n`. -/
def decimalExponent (m e : Nat) : Nat → Int → Int
  | 0, n => n
  | fuel + 1, n =>
    if m * 2 ^ (e + 2) * 10 ^ (-n).toNat < 10 ^ n.toNat * 2 ^ 1076 then n
    else decimalExponent m e fuel (n + 1)

/-- The integer part of `m * 2 ^ (e - 1074) / 10 ^ p`. -/
def scaledFloor (m e : Nat) (p : Int) : Nat :=
  (m * 2 ^ (e + 2) * 10 ^ (-p).toNat) / (10 ^ p.toNat * 2 ^ 1076)

/-- Whether `s * 10 ^ p` is at least as close to the double as `(s + 1) * 10 ^ p`,
the even one winning a tie. -/
def lowerIsCloser (m e : Nat) (s : Nat) (p : Int) : Bool :=
  let x2 := 2 * (m * 2 ^ (e + 2) * 10 ^ (-p).toNat)
  let mid := (2 * s + 1) * (10 ^ p.toNat * 2 ^ 1076)
  decide (x2 < mid) || (decide (x2 = mid) && decide (s % 2 = 0))

/-- The digits `s` and the power `p` of the shortest decimal `s * 10 ^ p` that
rounds to the double, trying `k = 17 - fuel + 1, ...` digits; of two candidates
the closer one. -/
def shortest (m e : Nat) (n : Int) : Nat → Nat → Nat × Int
  | 0, k => (scaledFloor m e (n - k), n - k)
  | fuel + 1, k =>
    let p := n - k
    let s := scaledFloor m e p
    let a := roundsTo m e s p && decide (0 < s)
    let b := roundsTo m e (s + 1) p
    if a && b then (if lowerIsCloser m e s p then (s, p) else (s + 1, p))
    else if a then (s, p)
    else if b then (s + 1, p)
    else shortest m e n fuel (k + 1)

/-- Drop the zeros at the end of a digit list. -/
def dropTrailingZeros (ds : List Char) : List Char :=
  (ds.reverse.dropWhile (fun c => c == '0')).reverse

/-- Steps 6 to 10 of Number::toString: the text for digits `ds` (`k` of them)
and the exponent `n`, the value being `0.ds * 10 ^ n`. -/
def formatDecimal (ds : List Char) (n : Int) : String :=
  let k : Int := ds.length
  if k ≤ n ∧ n ≤ 21 then String.mk (ds ++ List.replicate (n - k).toNat '0')
  else if 0 < n ∧ n ≤ 21 then String.mk (ds.take n.toNat ++ '.' :: ds.drop n.toNat)
  else if -6 < n ∧ n ≤ 0 then String.mk ('0' :: '.' :: List.replicate (-n).toNat '0' ++ ds)
  else
    let ex := n - 1
    let sign := if ex < 0 then '-' else '+'
    let mant := match ds with
      | [] => []
      | [d] => [d]
      | d :: rest => d :: '.' :: rest
    String.mk (mant ++ 'e' :: sign :: (toString ex.natAbs).data)

/-- Number::toString for a positive finite double. -/
def positiveToString (m e : Nat) : String :=
  let me := normalize 53 m e
  let n := decimalExponent me.1 me.2 640 (-324)
  let sp := shortest me.1 me.2 n 17 1
  let all := (toString sp.1).data
  formatDecimal (dropTrailingZeros all) (sp.2 + all.length)

/-- Number::toString (radix 10). -/
def JsNumber.toJsString : JsNumber → String
  | .nan => "NaN"
  | .inf false => "Infinity"
  | .inf true => "-Infinity"
  | .fin neg m e =>
    if m.val = 0 then "0"
    else (if neg then "-" else "") ++ positiveToString m.val e.val

/-- The comparison `x > 0`. -/
def JsNumber.isPositive : JsNumber → Bool
  | .nan => false
  | .inf neg => !neg
  | .fin neg m _ => !neg && decide (m.val ≠ 0)

/-- The number 1: the default quantity. -/
def JsNumber.one : JsNumber :=
  .fin false 1 1074

/-- A JavaScript value, as `addToCart` and `buyNow` may receive it: any
primitive, or an object.  An object stands by the result of its conversion to a
string (`none`: the conversion throws); the conversion is taken to leave the
page alone. -/
inductive JsVal where
  | undefined
  | null
  | bool (b : Bool)
  | num (x : JsNumber)
  | bigint (n : Int)
  | str (s : String)
  | symbol
  | object (conv : Option String)
deriving DecidableEq, Repr

/-- JavaScript `ToString`, as a template literal applies it; `none` when it
throws a TypeError. -/
def JsVal.toJsString : JsVal → Option String
  | .undefined => some "undefined"
  | .null => some "null"
  | .bool b => some (if b then "true" else "false")
  | .num x => some x.toJsString
  | .bigint n => some (toString n)
  | .str s => some s
  | .symbol => none
  | .object conv => conv

/-- The conversion the `value` setter of an input applies: `ToString`, but
`null` gives the empty string. -/
def JsVal.toValue : JsVal → Option String
  | .null => some ""
  | v => v.toJsString

/-- A default parameter: the default stands in for `undefined`. -/
def JsVal.orDefault (v d : JsVal) : JsVal :=
  if v = .undefined then d else v

/-- Template-literal interpolation of a property that may be missing:
`undefined` prints as the word. -/
def interpolate : Option String → String
  | some s => s
  | none => "undefined"

/-- The code points `String.prototype.trim` strips: ECMAScript WhiteSpace and
LineTerminator. -/
def isJsWhiteSpace (c : Char) : Bool :=
  let n := c.toNat
  n == 0x09 || n == 0x0A || n == 0x0B || n == 0x0C || n == 0x0D || n == 0x20 ||
  n == 0xA0 || n == 0x1680 || (0x2000 ≤ n && n ≤ 0x200A) || n == 0x2028 ||
  n == 0x2029 || n == 0x202F || n == 0x205F || n == 0x3000 || n == 0xFEFF

/-- `String.prototype.trim` on the list of code points. -/
def trimChars (cs : List Char) : List Char :=
  ((cs.dropWhile isJsWhiteSpace).reverse.dropWhile isJsWhiteSpace).reverse

/-- `String.prototype.trim`. -/
def jsTrim (s : String) : String :=
  String.mk (trimChars s.data)

/-- UTF-16 code units of one code point. -/
def utf16Units (c : Char) : Nat :=
  if c.toNat < 0x10000 then 1 else 2

/-- The `length` of a JavaScript string on a list of code points. -/
def unitsLength : List Char → Nat
  | [] => 0
  | c :: cs => utf16Units c + unitsLength cs

/-- The `length` property of a JavaScript string: UTF-16 code units. -/
def jsLength (s : String) : Nat :=
  unitsLength s.data

/-- The `a || b` of two strings: `b` when `a` is empty. -/
def jsOr (a b : String) : String :=
  if a = "" then b else a

/-! ## Markup -/

/-- A node boundary of parsed markup, in tree order: a text node, the start of
an element with its attributes, or the end of the element last started. -/
inductive Token where
  | text (s : String)
  | startTag (tag : String) (attrs : List (String × String))
  | endTag (tag : String)
deriving DecidableEq, Repr

/-- A character the tokenizer passes through as text: not the start of a tag or
of a character reference, and not one the input stream rewrites or drops. -/
def isTextChar (c : Char) : Bool :=
  c != '<' && c != '&' && c != '\r' && c.toNat != 0

/-- A character of a tag or attribute name in the markup the embedding reads. -/
def isNameChar (c : Char) : Bool :=
  ('a' ≤ c && c ≤ 'z') || ('0' ≤ c && c ≤ '9') || c == '-'

/-- A character of a double-quoted attribute value. -/
def isValueChar (c : Char) : Bool :=
  c != '"' && c != '&' && c != '\r' && c.toNat != 0

/-- The elements the embedding reads: the tree builder inserts them where they
stand and closes them at their end tag. -/
def isPlainTag (tag : String) : Bool :=
  tag == "div" || tag == "span" || tag == "button"

/-- Where the tokenizer stands. -/
inductive Mode where
  /-- reading text; the characters read so far, last first -/
  | data (acc : List Char)
  /-- after `<` -/
  | tagOpen
  /-- reading the name of a start tag (`closing = false`) or end tag -/
  | tagName (closing : Bool) (acc : List Char)
  /-- after the blank that follows a tag name or an attribute -/
  | beforeAttr (tag : String) (attrs : List (String × String))
  | attrName (tag : String) (attrs : List (String × String)) (acc : List Char)
  /-- after `=` -/
  | afterEq (tag : String) (attrs : List (String × String)) (name : String)
  | attrValue (tag : String) (attrs : List (String × String)) (name : String) (acc : List Char)
  /-- after the closing quote of a value -/
  | afterValue (tag : String) (attrs : List (String × String))
deriving DecidableEq, Repr

/-- The text node for the characters read, if any. -/
def flushText (acc : List Char) (out : List Token) : List Token :=
  if acc.isEmpty then out else .text (String.mk acc.reverse) :: out

/-- The tokenizer on the markup the embedding reads: text, and start and end
tags of `div`, `span` and `button` with double-quoted attributes, written
without spare blanks.  `out` holds the tokens read so far, last first.  The
answer is `none` for any other markup. -/
def tokenize : Mode → List Token → List Char → Option (List Token)
  | .data acc, out, [] => some (flushText acc out).reverse
  | _, _, [] => none
  | .data acc, out, c :: cs =>
    if c == '<' then tokenize .tagOpen (flushText acc out) cs
    else if isTextChar c then tokenize (.data (c :: acc)) out cs
    else none
  | .tagOpen, out, c :: cs =>
    if c == '/' then tokenize (.tagName true []) out cs
    else if isNameChar c then tokenize (.tagName false [c]) out cs
    else none
  | .tagName closing acc, out, c :: cs =>
    if isNameChar c then tokenize (.tagName closing (c :: acc)) out cs
    else if !isPlainTag (String.mk acc.reverse) then none
    else if c == '>' then
      tokenize (.data [])
        ((if closing then .endTag (String.mk acc.reverse)
          else .startTag (String.mk acc.reverse) []) :: out) cs
    else if c == ' ' && !closing then tokenize (.beforeAttr (String.mk acc.reverse) []) out cs
    else none
  | .beforeAttr tag attrs, out, c :: cs =>
    if isNameChar c then tokenize (.attrName tag attrs [c]) out cs else none
  | .attrName tag attrs acc, out, c :: cs =>
    if isNameChar c then tokenize (.attrName tag attrs (c :: acc)) out cs
    else if c == '=' && !(attrs.map Prod.fst).contains (String.mk acc.reverse) then
      tokenize (.afterEq tag attrs (String.mk acc.reverse)) out cs
    else none
  | .afterEq tag attrs name, out, c :: cs =>
    if c == '"' then tokenize (.attrValue tag attrs name []) out cs else none
  | .attrValue tag attrs name acc, out, c :: cs =>
    if c == '"' then tokenize (.afterValue tag (attrs ++ [(name, String.mk acc.reverse)])) out cs
    else if isValueChar c then tokenize (.attrValue tag attrs name (c :: acc)) out cs
    else none
  | .afterValue tag attrs, out, c :: cs =>
    if c == '>' then tokenize (.data []) (.startTag tag attrs :: out) cs
    else if c == ' ' then tokenize (.beforeAttr tag attrs) out cs
    else none

/-- Whether the tags pair up, each end tag closing the element last started,
with no `button` inside a `button`; `stack` holds the open elements. -/
def wellNested : List String → List Token → Bool
  | stack, [] => stack.isEmpty
  | stack, .text _ :: rest => wellNested stack rest
  | stack, .startTag tag _ :: rest =>
    !(tag == "button" && stack.contains "button") && wellNested (tag :: stack) rest
  | [], .endTag _ :: _ => false
  | top :: stack, .endTag tag :: rest => top == tag && wellNested stack rest

/-- The HTML fragment parser, as the `innerHTML` setter of a `div` runs it, on
the markup the embedding reads: the nodes it builds, in tree order.  `none`
stands for markup outside that subset, about which the embedding says
nothing. -/
def parseFragment (markup : String) : Option (List Token) :=
  match tokenize (.data []) [] markup.data with
  | some tokens => if wellNested [] tokens then some tokens else none
  | none => none

/-- The ids of the elements among the nodes. -/
def idsOf (tokens : List Token) : List String :=
  tokens.filterMap fun t =>
    match t with
    | .startTag _ attrs => attrs.lookup "id"
    | _ => none

/-- The `textContent` of the nodes: their text, concatenated. -/
def textOf (tokens : List Token) : String :=
  String.join (tokens.filterMap fun t =>
    match t with
    | .text s => some s
    | _ => none)

/-! ## The document -/

/-- An element the script creates and appends to a parent: a toast `div` or a
hidden `input`.  `nid` is the node's identity. -/
structure Child where
  nid : Nat
  tag : String
  className : String
  cssText : String
  /-- the nodes below the element, in tree order; `none` when they were built
  from markup the embedding does not read -/
  content : Option (List Token)
  typeAttr : String
  name : String
  value : String
deriving DecidableEq, Repr

/-- An element of the body that the script looks up by id or appends: a toast
container (any element carrying that id) or a form.  Such an element is never
removed or moved by the script, so its position in `Document.body` identifies
it. -/
structure Element where
  tag : String
  idAttr : String
  cssText : String
  method : String
  action : String
  children : List Child
deriving DecidableEq, Repr

/-- The suggestion panel `#searchSuggestions`. -/
structure Panel where
  display : String
deriving DecidableEq, Repr

/-- The cart badge, the first element matching `.navbar .badge`. -/
structure Badge where
  textContent : String
  display : String
deriving DecidableEq, Repr

/-- The brand grid `#brandGrid`. -/
structure Grid where
  innerHTML : String
deriving DecidableEq, Repr

/-- The page as the script sees it. -/
structure Document where
  /-- value of the first `[name=csrfmiddlewaretoken]` element, if any -/
  csrfField : Option String
  /-- whether `#searchInput` exists -/
  searchInput : Bool
  searchSuggestions : Option Panel
  badge : Option Badge
  brandGrid : Option Grid
  /-- number of `[data-bs-toggle="tooltip"]` elements -/
  tooltipTriggers : Nat
  /-- toast containers and forms, in document order; `document.body.appendChild`
  adds at the end -/
  body : List Element
deriving DecidableEq, Repr

/-! ## Timers, closures and the world -/

/-- What a pending timer runs. -/
inductive Callback where
  /-- `() => fetchSearchSuggestions(query)` of the input listener -/
  | fetchSearchSuggestions (query : String)
  /-- the auto-removal arrow function of `showToast`, closed over its toast -/
  | removeToast (nid : Nat)
deriving DecidableEq, Repr

/-- A timer registered with `setTimeout`. -/
structure Timer where
  id : Nat
  due : Nat
  callback : Callback
deriving DecidableEq, Repr

/-- The variables captured by the listeners `initializeSearch` attaches. -/
structure SearchClosure where
  /-- whether the captured `suggestionsDiv` is non-null -/
  suggestionsDiv : Bool
  /-- `searchTimeout`; `none` is `undefined` -/
  searchTimeout : Option Nat
deriving DecidableEq, Repr

/-- A call of `fetch`. -/
structure Request where
  url : String
  method : String
  contentType : String
  csrfHeader : String
  body : String
deriving DecidableEq, Repr

/-- Browser and script state. -/
structure World where
  doc : Document
  /-- virtual clock, in milliseconds -/
  now : Nat
  /-- identity the next created child node gets -/
  nextNid : Nat
  /-- id the next `setTimeout` returns -/
  nextTimer : Nat
  timers : List Timer
  /-- the module-level constant `csrfToken` -/
  csrfToken : String
  /-- the listeners of `initializeSearch`, once attached -/
  search : Option SearchClosure
  /-- number of `bootstrap.Tooltip` objects constructed -/
  tooltips : Nat
  /-- calls made to the external `fetchSearchSuggestions`: time and argument -/
  fetchCalls : List (Nat × String)
  /-- calls of `fetch`, oldest first -/
  requests : List Request
  /-- requests whose promise has not settled yet -/
  inFlight : Nat
  /-- forms submitted, oldest first -/
  submissions : List Element
  console : List String
deriving DecidableEq, Repr

/-- `setTimeout(cb, delay)`: returns the timer id. -/
def setTimeout (w : World) (cb : Callback) (delay : Nat) : Nat × World :=
  (w.nextTimer,
    { w with
      nextTimer := w.nextTimer + 1
      timers := w.timers ++ [{ id := w.nextTimer, due := w.now + delay, callback := cb }] })

/-- `clearTimeout(id)`; an `undefined` or stale id does nothing. -/
def clearTimeout (w : World) : Option Nat → World
  | none => w
  | some i => { w with timers := w.timers.filter (fun t => t.id != i) }

/-! ## DOM helpers -/

/-- Apply `f` to the element at position `i`. -/
def modifyAt {α : Type} (f : α → α) : Nat → List α → List α
  | _, [] => []
  | 0, x :: xs => f x :: xs
  | n + 1, x :: xs => x :: modifyAt f n xs

/-- Position of the first element with the given id. -/
def findId (id : String) : List Element → Option Nat
  | [] => none
  | e :: es => if e.idAttr = id then some 0 else (findId id es).map (· + 1)

/-- `document.getElementById` on the body elements. -/
def getElementById (d : Document) (id : String) : Option Nat :=
  findId id d.body

/-- `document.body.appendChild(e)`. -/
def appendToBody (d : Document) (e : Element) : Document :=
  { d with body := d.body ++ [e] }

/-- `parent.appendChild(c)` for the body element at position `parent`. -/
def appendChild (d : Document) (parent : Nat) (c : Child) : Document :=
  { d with body := modifyAt (fun e => { e with children := e.children ++ [c] }) parent d.body }

/-- Position of the first body element that has the node among its children. -/
def findParent (nid : Nat) : List Element → Option Nat
  | [] => none
  | e :: es => if e.children.any (fun c => c.nid == nid) then some 0 else (findParent nid es).map (· + 1)

/-- The `parentNode` of a child node: `none` when it is detached. -/
def parentNode (d : Document) (nid : Nat) : Option Nat :=
  findParent nid d.body

/-- `parent.removeChild(node)`. -/
def removeChild (d : Document) (parent : Nat) (nid : Nat) : Document :=
  { d with body := modifyAt (fun e => { e with children := e.children.filter (fun c => c.nid != nid) }) parent d.body }

/-- All child nodes attached to the document, in document order. -/
def allChildren (d : Document) : List Child :=
  d.body.flatMap (fun e => e.children)

/-- Children of the body element at position `i` (none when there is no such
element). -/
def childrenAt (d : Document) (i : Nat) : List Child :=
  match d.body[i]? with
  | some e => e.children
  | none => []

/-- `suggestionsDiv.style.display = 'none'`. -/
def hideSuggestions (d : Document) : Document :=
  { d with searchSuggestions := d.searchSuggestions.map (fun p => { p with display := "none" }) }

/-! ## The script -/

/-- Line 12: `document.querySelector('[name=csrfmiddlewaretoken]')?.value || ''`. -/
def readCsrfToken (d : Document) : String :=
  match d.csrfField with
  | some v => jsOr v ""
  | none => ""

/-- One more than the largest node identity in the page: created nodes are
distinct from every node already there. -/
def freshNid (d : Document) : Nat :=
  (allChildren d).foldl (fun m c => max m (c.nid + 1)) 0

/-- Evaluation of the script's top level (lines 11-16 and 182): the listener
registration of line 2 is run by `onDOMContentLoaded`. -/
def loadScript (page : Document) : World :=
  { doc := page
    now := 0
    nextNid := freshNid page
    nextTimer := 1
    timers := []
    csrfToken := readCsrfToken page
    search := none
    tooltips := 0
    fetchCalls := []
    requests := []
    inFlight := 0
    submissions := []
    console := ["GrandShopBD JavaScript loaded successfully!"] }

/-- `initializeSearch` (lines 19-47): returns early without a search input,
otherwise attaches the input and click listeners, which capture
`suggestionsDiv` and the still undefined `searchTimeout`. -/
def initializeSearch (w : World) : World :=
  if !w.doc.searchInput then w
  else { w with search := some { suggestionsDiv := w.doc.searchSuggestions.isSome, searchTimeout := none } }

/-- The input listener (lines 26-39); `value` is `this.value` at the event. -/
def onInput (w : World) (value : String) : World :=
  match w.search with
  | none => w
  | some cl =>
    let w1 := clearTimeout w cl.searchTimeout
    let query := jsTrim value
    if 2 ≤ jsLength query then
      let r := setTimeout w1 (.fetchSearchSuggestions query) 300
      { r.2 with search := some { cl with searchTimeout := some r.1 } }
    else if cl.suggestionsDiv then { w1 with doc := hideSuggestions w1.doc }
    else w1

/-- Where a click landed: the results of `searchInput.contains(e.target)` and
`suggestionsDiv.contains(e.target)`. -/
structure ClickTarget where
  inSearchInput : Bool
  inSuggestions : Bool
deriving DecidableEq, Repr

/-- The document click listener (lines 42-46). -/
def onDocumentClick (w : World) (e : ClickTarget) : World :=
  match w.search with
  | none => w
  | some cl =>
    if cl.suggestionsDiv && !e.inSearchInput && !e.inSuggestions then
      { w with doc := hideSuggestions w.doc }
    else w

/-- `initializeTooltips` (lines 50-55): one `bootstrap.Tooltip` per trigger. -/
def initializeTooltips (w : World) : World :=
  { w with tooltips := w.tooltips + w.doc.tooltipTriggers }

/-- The container `getOrCreateToastContainer` creates (lines 74-76). -/
def newToastContainer : Element :=
  { tag := "div"
    idAttr := "toast-container"
    cssText := "position: fixed; top: 20px; right: 20px; z-index: 9999;"
    method := ""
    action := ""
    children := [] }

/-- `getOrCreateToastContainer` (lines 71-80): returns the container's position
in the body. -/
def getOrCreateToastContainer (w : World) : Nat × World :=
  match getElementById w.doc "toast-container" with
  | some i => (i, w)
  | none => (w.doc.body.length, { w with doc := appendToBody w.doc newToastContainer })

/-- The markup assigned to a toast's `innerHTML` (lines 86-89). -/
def toastMarkup (message : String) : String :=
  "\n        " ++ message ++
  "\n        <button type=\"button\" class=\"btn-close\" data-bs-dismiss=\"alert\"></button>\n    "

/-- The `className` of a toast (line 84). -/
def toastClassName (type : String) : String :=
  "alert alert-" ++ (if type = "error" then "danger" else type) ++ " alert-dismissible fade show"

/-- `createToastElement` (lines 82-91): a fresh detached `div`; the `innerHTML`
setter of line 86 runs the fragment parser on the markup. -/
def createToastElement (w : World) (message type : String) : Child × World :=
  ({ nid := w.nextNid
     tag := "div"
     className := toastClassName type
     cssText := "margin-bottom: 10px; min-width: 300px;"
     content := parseFragment (toastMarkup message)
     typeAttr := ""
     name := ""
     value := "" },
   { w with nextNid := w.nextNid + 1 })

/-- `showToast` (lines 58-69); `type = none` is a call without the argument. -/
def showToast (w : World) (message : String) (type : Option String) : World :=
  let type := type.getD "info"
  let r := getOrCreateToastContainer w
  let t := createToastElement r.2 message type
  let w3 := { t.2 with doc := appendChild t.2.doc r.1 t.1 }
  (setTimeout w3 (.removeToast t.1.nid) 3000).2

/-- The auto-removal callback (lines 64-68). -/
def removeToast (w : World) (nid : Nat) : World :=
  match parentNode w.doc nid with
  | some p => { w with doc := removeChild w.doc p nid }
  | none => w

/-- `updateCartCount` (lines 146-152); `count = none` is `undefined`, which the
`textContent` setter takes for the empty string and `>` for NaN. -/
def updateCartCount (w : World) (count : Option JsNumber) : World :=
  match w.doc.badge with
  | none => w
  | some b =>
    let text := match count with
      | some x => x.toJsString
      | none => ""
    let shown := match count with
      | some x => x.isPositive
      | none => false
    { w with doc := { w.doc with badge := some { b with textContent := text, display := if shown then "inline" else "none" } } }

/-- The JSON body `/add-to-cart/` answers with:
`{success: bool, cart_count?: number, message?: string}`. -/
structure CartResponse where
  success : Bool
  cart_count : Option JsNumber
  message : Option String
deriving DecidableEq, Repr

/-- How the promise chain of `addToCart` settles. -/
inductive FetchOutcome where
  /-- `fetch` rejects -/
  | transportError
  /-- `response.json()` rejects -/
  | parseError
  /-- the body is the JSON `null`: reading `data.success` throws in the `then`
  handler, and the `catch` handler that follows it receives the error -/
  | nullBody
  | json (data : CartResponse)
deriving DecidableEq, Repr

/-- How a call ends: normally, or with a TypeError thrown; either way with the
state it leaves. -/
inductive Completion where
  | normal (w : World)
  | throw (w : World)
deriving DecidableEq, Repr

/-- The state a call leaves. -/
def Completion.world : Completion → World
  | .normal w => w
  | .throw w => w

/-- `addToCart` (lines 94-102): the synchronous part builds the body, which
throws when an argument has no string conversion, and issues the request;
`quantity = undefined` is a call without the argument. -/
def addToCart (w : World) (productId quantity : JsVal) : Completion :=
  let quantity := quantity.orDefault (.num .one)
  match productId.toJsString with
  | none => .throw w
  | some p =>
    match quantity.toJsString with
    | none => .throw w
    | some q =>
      .normal { w with
        requests := w.requests ++
          [{ url := "/add-to-cart/"
             method := "POST"
             contentType := "application/x-www-form-urlencoded"
             csrfHeader := w.csrfToken
             body := "product_id=" ++ p ++ "&quantity=" ++ q }]
        inFlight := w.inFlight + 1 }

/-- The `.then(data => ...)` handler (lines 104-111). -/
def addToCartThen (w : World) (data : CartResponse) : World :=
  if data.success then
    showToast (updateCartCount w data.cart_count) "Product added to cart!" (some "success")
  else
    showToast w (interpolate data.message) (some "error")

/-- The `.catch(error => ...)` handler (lines 112-115). -/
def addToCartCatch (w : World) : World :=
  showToast { w with console := w.console ++ ["Error:"] } "Error adding product to cart" (some "error")

/-- The promise chain of one `addToCart` call settling (lines 103-115). -/
def addToCartSettled (w : World) : FetchOutcome → World
  | .json data => addToCartThen w data
  | .transportError => addToCartCatch w
  | .parseError => addToCartCatch w
  | .nullBody => addToCartCatch w

/-- A hidden input as `buyNow` builds it. -/
def hiddenInput (nid : Nat) (name value : String) : Child :=
  { nid := nid
    tag := "input"
    className := ""
    cssText := ""
    content := some []
    typeAttr := "hidden"
    name := name
    value := value }

/-- The form `buyNow` builds (lines 119-140), the two values already
converted by the `value` setters. -/
def buyNowForm (w : World) (productId quantity : String) : Element :=
  { tag := "form"
    idAttr := ""
    cssText := ""
    method := "POST"
    action := "/buy-now/"
    children :=
      [ hiddenInput w.nextNid "csrfmiddlewaretoken" w.csrfToken,
        hiddenInput (w.nextNid + 1) "product_id" productId,
        hiddenInput (w.nextNid + 2) "quantity" quantity ] }

/-- `buyNow` (lines 118-144); `quantity = undefined` is a call without the
argument.  The `value` setters of lines 131 and 136 throw when the argument has
no string conversion: the nodes built so far are then unreachable and the page
is as before. -/
def buyNow (w : World) (productId quantity : JsVal) : Completion :=
  let quantity := quantity.orDefault (.num .one)
  match productId.toValue with
  | none => .throw w
  | some p =>
    match quantity.toValue with
    | none => .throw w
    | some q =>
      let form := buyNowForm w p q
      .normal { w with
        nextNid := w.nextNid + 3
        doc := appendToBody w.doc form
        submissions := w.submissions ++ [form] }

/-- A vehicle brand record. -/
structure Brand where
  id : Nat
  name : String
  logo : String
deriving DecidableEq, Repr

/-- The hardcoded records (lines 157-164). -/
def brands : List Brand :=
  [ { id := 1, name := "TOYOTA", logo := "/static/images/brands/toyota.png" },
    { id := 2, name := "HONDA", logo := "/static/images/brands/honda.png" },
    { id := 3, name := "MITSUBISHI", logo := "/static/images/brands/mitsubishi.png" },
    { id := 4, name := "NISSAN", logo := "/static/images/brands/nissan.png" },
    { id := 5, name := "MAZDA", logo := "/static/images/brands/mazda.png" },
    { id := 6, name := "LEXUS", logo := "/static/images/brands/lexus.png" } ]

/-- The template literal of one tile (lines 171-176). -/
def brandTile (brand : Brand) : String :=
  "\n            <div class=\"vehicle-brand-item\" onclick=\"selectBrand(" ++ toString brand.id ++
  ", \x27" ++ brand.name ++ "\x27)\">\n                <img src=\"" ++ brand.logo ++ "\" alt=\"" ++
  brand.name ++
  "\" class=\"mb-2\" style=\"max-height: 40px;\" onerror=\"this.style.display=\x27none\x27\">" ++
  "\n                <div class=\"fw-medium\">" ++ brand.name ++
  "</div>\n            </div>\n        "

/-- The string the `forEach` loop accumulates in `html` (lines 169-177). -/
def brandsHtml : String :=
  brands.foldl (fun html brand => html ++ brandTile brand) ""

/-- `loadVehicleBrands` (lines 155-180). -/
def loadVehicleBrands (w : World) : World :=
  match w.doc.brandGrid with
  | none => w
  | some g => { w with doc := { w.doc with brandGrid := some { g with innerHTML := brandsHtml } } }

/-- The `DOMContentLoaded` listener (lines 2-9). -/
def onDOMContentLoaded (w : World) : World :=
  loadVehicleBrands (initializeTooltips (initializeSearch w))

/-- Page load: the script runs, then `DOMContentLoaded` fires. -/
def boot (page : Document) : World :=
  onDOMContentLoaded (loadScript page)

/-! ## The event loop -/

/-- Run a timer callback. -/
def runCallback (w : World) : Callback → World
  | .fetchSearchSuggestions query => { w with fetchCalls := w.fetchCalls ++ [(w.now, query)] }
  | .removeToast nid => removeToast w nid

/-- A timer fires: the clock stands at its due time. -/
def fire (w : World) (t : Timer) : World :=
  runCallback { w with now := t.due } t.callback

/-- The timers due by time `t`, in firing order: by due time, and among equal
due times in the order they were registered. -/
def dueTimers (w : World) (t : Nat) : List Timer :=
  (w.timers.filter (fun tm => decide (tm.due ≤ t))).insertionSort (fun a b => a.due ≤ b.due)

/-- The clock advances by `dt` milliseconds; every timer that falls due fires. -/
def elapse (w : World) (dt : Nat) : World :=
  let t := w.now + dt
  let w1 := (dueTimers w t).foldl fire
    { w with timers := w.timers.filter (fun tm => !decide (tm.due ≤ t)) }
  { w1 with now := t }

/-- What can happen to the page after load. -/
inductive Op where
  /-- an `input` event on the search field, with the field's value -/
  | input (value : String)
  /-- a click somewhere in the document -/
  | click (e : ClickTarget)
  /-- time passes -/
  | elapse (dt : Nat)
  | showToast (message : String) (type : Option String)
  | getOrCreateToastContainer
  | addToCart (productId quantity : JsVal)
  /-- the oldest pending `addToCart` promise chain settles -/
  | settle (outcome : FetchOutcome)
  | buyNow (productId quantity : JsVal)
  | loadVehicleBrands
  /-- the user closes a toast: Bootstrap detaches the alert -/
  | dismiss (nid : Nat)
deriving DecidableEq, Repr

/-- One operation. -/
def step (w : World) : Op → World
  | .input value => onInput w value
  | .click e => onDocumentClick w e
  | .elapse dt => elapse w dt
  | .showToast message type => showToast w message type
  | .getOrCreateToastContainer => (getOrCreateToastContainer w).2
  | .addToCart productId quantity => (addToCart w productId quantity).world
  | .settle outcome =>
    if w.inFlight = 0 then w
    else addToCartSettled { w with inFlight := w.inFlight - 1 } outcome
  | .buyNow productId quantity => (buyNow w productId quantity).world
  | .loadVehicleBrands => loadVehicleBrands w
  | .dismiss nid => removeToast w nid

/-- A sequence of operations, oldest first. -/
def run (ops : List Op) (w : World) : World :=
  ops.foldl step w

/-! ## Observing markup -/

/-- Whether `p` is a prefix of `s`. -/
def startsWith : List Char → List Char → Bool
  | [], _ => true
  | _ :: _, [] => false
  | a :: p, b :: s => a == b && startsWith p s

/-- Scanner behind `segments`: `skip` characters of a token just matched are
still to be passed over; `acc` is the segment being read (reversed), if any. -/
def segmentsAux (o c : List Char) : Nat → Option (List Char) → List Char → List (List Char)
  | _, _, [] => []
  | skip + 1, acc, _ :: xs => segmentsAux o c skip acc xs
  | 0, none, x :: xs =>
    if startsWith o (x :: xs) then segmentsAux o c (o.length - 1) (some []) xs
    else segmentsAux o c 0 none xs
  | 0, some a, x :: xs =>
    if startsWith c (x :: xs) then a.reverse :: segmentsAux o c (c.length - 1) none xs
    else segmentsAux o c 0 (some (x :: a)) xs

/-- The pieces of `markup` that stand between an occurrence of `o` and the next
occurrence of `c`, in order: with `o` the start of an attribute and `c` the
closing quote, the attribute's values. -/
def segments (o c : String) (markup : String) : List String :=
  (segmentsAux o.data c.data 0 none markup.data).map String.mk

/-! ## Observations used by the theorems -/

/-- Number of body elements carrying the id `toast-container`. -/
def topCount (d : Document) : Nat :=
  (d.body.filter (fun e => decide (e.idAttr = "toast-container"))).length

/-- Number of elements carrying the id `toast-container` among the nodes below
the attached children; `none` when the nodes of some child are not known. -/
def hiddenCount : List Child → Option Nat
  | [] => some 0
  | c :: cs =>
    match c.content, hiddenCount cs with
    | some tokens, some n => some ((idsOf tokens).count "toast-container" + n)
    | _, _ => none

/-- Number of elements carrying the id `toast-container` in the document: body
elements and elements inside the attached children; `none` when the nodes of
some child are not known. -/
def containerCount (d : Document) : Option Nat :=
  (hiddenCount (allChildren d)).map (fun n => topCount d + n)

/-- Whether the nodes below a child are known and none of them carries the id
`toast-container`. -/
def noContainerInside (c : Child) : Bool :=
  match c.content with
  | some tokens => !(idsOf tokens).contains "toast-container"
  | none => false

/-- Whether the first element with the id `toast-container`, if there is one,
is a body element and not a node inside a child: then `findId` finds what
`document.getElementById` finds. -/
def lookupOk : List Element → Bool
  | [] => true
  | e :: es =>
    if e.idAttr = "toast-container" then true
    else e.children.all noContainerInside && lookupOk es

/-- Whether no node inside a child carries the id `toast-container`. -/
def noHidden (d : Document) : Bool :=
  (allChildren d).all noContainerInside

/-- Whether the toast built for a message has nodes the embedding reads, none
of them with the id `toast-container`. -/
def harmless (message : String) : Bool :=
  match parseFragment (toastMarkup message) with
  | some tokens => !(idsOf tokens).contains "toast-container"
  | none => false

/-- Whether an operation shows only harmless messages. -/
def harmlessOp : Op → Bool
  | .showToast message _ => harmless message
  | .settle (.json data) => data.success || harmless (interpolate data.message)
  | _ => true

/-- Whether a message is plain text for the HTML parser: no tag or character
reference starts in it, and it has no character the input stream rewrites or
drops. -/
def isPlainText (message : String) : Bool :=
  message.data.all isTextChar

/-- Whether `x` occurs in `s`. -/
def hasInfix (x : List Char) : List Char → Bool
  | [] => x.isEmpty
  | c :: cs => startsWith x (c :: cs) || hasInfix x cs

/-- Whether the element's text, its `textContent`, contains `x`. -/
def containsText (c : Child) (x : String) : Bool :=
  match c.content with
  | some tokens => hasInfix x.data (textOf tokens).data
  | none => false

/-- The nodes of a toast for a message the parser takes as text: the message
between the blanks of the template, the close button, and the closing blanks. -/
def plainToastNodes (message : String) : List Token :=
  [ .text ("\n        " ++ message ++ "\n        "),
    .startTag "button" [("type", "button"), ("class", "btn-close"), ("data-bs-dismiss", "alert")],
    .endTag "button",
    .text "\n    " ]

/-- Whether a node with this identity is attached to the document. -/
def attached (d : Document) (nid : Nat) : Bool :=
  (allChildren d).any (fun c => c.nid == nid)

/-- The suggestion fetch a timer stands for: its due time and query. -/
def fetchOf (t : Timer) : Option (Nat × String) :=
  match t.callback with
  | .fetchSearchSuggestions q => some (t.due, q)
  | .removeToast _ => none

/-- The suggestion fetches that are scheduled and have not fired: due time and
query of each. -/
def pendingFetches (w : World) : List (Nat × String) :=
  w.timers.filterMap fetchOf

/-- A burst of input events: each entry is the time since the previous event
and the field's value. -/
def typing (w : World) : List (Nat × String) → World
  | [] => w
  | (gap, value) :: rest => typing (onInput (elapse w gap) value) rest

/-! ## Sample inputs -/

/-- A page with every element the script binds to and no toast container. -/
def samplePage : Document :=
  { csrfField := some "tok"
    searchInput := true
    searchSuggestions := some { display := "block" }
    badge := some { textContent := "0", display := "none" }
    brandGrid := some { innerHTML := "" }
    tooltipTriggers := 0
    body := [] }

/-! ## Invariants of the reachable states -/

/-- The listeners of `initializeSearch` are attached exactly when the page has
a search input; they captured the page's suggestion panel, which is still in
the document. -/
def Wired (page : Document) (w : World) : Prop :=
  w.search.isSome = page.searchInput ∧
  (∀ cl, w.search = some cl → cl.suggestionsDiv = page.searchSuggestions.isSome) ∧
  w.doc.searchSuggestions.isSome = page.searchSuggestions.isSome

/-- Timer ids are handed out in increasing order, and a pending suggestion
fetch is always the timer `searchTimeout` names. -/
def TimersOk (w : World) : Prop :=
  (∀ t ∈ w.timers, t.id < w.nextTimer) ∧
  (∀ t ∈ w.timers, (fetchOf t).isSome →
    ∃ cl, w.search = some cl ∧ cl.searchTimeout = some t.id) ∧
  (pendingFetches w).length ≤ 1

/-- The value of the last event of a burst that starts with value `v0`. -/
def lastValue (v0 : String) : List (Nat × String) → String
  | [] => v0
  | (_, value) :: rest => lastValue value rest

/-- The ids of the body elements, in document order. -/
def bodyIds (d : Document) : List String :=
  d.body.map (fun e => e.idAttr)

/-- The identities of the attached child nodes, in document order. -/
def nids (d : Document) : List Nat :=
  (allChildren d).map (fun c => c.nid)

/-- Distinct nodes of the page have distinct identities. -/
def WellFormed (page : Document) : Prop :=
  (nids page).Nodup

/-- Node identities stay distinct, and the next one is new. -/
def NidsOk (w : World) : Prop :=
  (∀ n ∈ nids w.doc, n < w.nextNid) ∧ (nids w.doc).Nodup

/-- The id in `searchTimeout` was handed out by `setTimeout` and never names a
timer other than a suggestion fetch. -/
def SearchIdOk (w : World) : Prop :=
  (∀ cl sid, w.search = some cl → cl.searchTimeout = some sid → sid < w.nextTimer) ∧
  (∀ t ∈ w.timers, t.id < w.nextTimer) ∧
  (∀ t ∈ w.timers, fetchOf t = none → ∀ cl, w.search = some cl → cl.searchTimeout ≠ some t.id)

/-- The removal of node `n0` is still ahead (its timer `tm` is pending and not
yet due) or the node is no longer attached. -/
def Expiring (tm : Timer) (n0 : Nat) (w : World) : Prop :=
  SearchIdOk w ∧ NidsOk w ∧ n0 < w.nextNid ∧
  ((tm ∈ w.timers ∧ w.now < tm.due) ∨ attached w.doc n0 = false)

/-! ## Facts about the DOM helpers -/

theorem modifyAt_length {α : Type} (f : α → α) (i : Nat) (l : List α) :
    (modifyAt f i l).length = l.length := by
  induction l generalizing i with
  | nil => cases i <;> rfl
  | cons x xs ih => cases i <;> simp [modifyAt, ih]

theorem modifyAt_getElem? {α : Type} (f : α → α) (i j : Nat) (l : List α) :
    (modifyAt f i l)[j]? = if i = j then l[j]?.map f else l[j]? := by
  induction l generalizing i j with
  | nil => cases i <;> simp [modifyAt]
  | cons x xs ih =>
    cases i with
    | zero => cases j <;> simp [modifyAt]
    | succ n =>
      cases j with
      | zero => simp [modifyAt]
      | succ m => simp [modifyAt, ih]

theorem modifyAt_of_length_le {α : Type} (f : α → α) (i : Nat) (l : List α)
    (h : l.length ≤ i) : modifyAt f i l = l := by
  induction l generalizing i with
  | nil => cases i <;> rfl
  | cons x xs ih =>
    cases i with
    | zero => simp at h
    | succ n => simp [modifyAt, ih n (by simpa using h)]

theorem modifyAt_append_length {α : Type} (f : α → α) (l : List α) (x : α) :
    modifyAt f l.length (l ++ [x]) = l ++ [f x] := by
  induction l with
  | nil => rfl
  | cons y ys ih => simp [modifyAt, ih]

theorem findId_lt {id : String} {l : List Element} {i : Nat} (h : findId id l = some i) :
    i < l.length := by
  induction l generalizing i with
  | nil => simp [findId] at h
  | cons e es ih =>
    unfold findId at h
    split at h
    · cases h; simp
    · cases hf : findId id es with
      | none => simp [hf] at h
      | some k =>
        simp [hf] at h
        subst h
        simpa using ih hf

theorem childrenAt_appendChild_same (d : Document) (i : Nat) (c : Child)
    (h : i < d.body.length) :
    childrenAt (appendChild d i c) i = childrenAt d i ++ [c] := by
  simp [childrenAt, appendChild, modifyAt_getElem?, List.getElem?_eq_getElem h]

theorem childrenAt_appendChild_other (d : Document) (i j : Nat) (c : Child) (h : j ≠ i) :
    childrenAt (appendChild d i c) j = childrenAt d j := by
  have h' : ¬ i = j := fun e => h e.symm
  simp [childrenAt, appendChild, modifyAt_getElem?, h']

/-- The toast `showToast` builds in world `w`. -/
theorem createToastElement_fst (w : World) (message type : String) :
    (createToastElement w message type).1 =
      { nid := w.nextNid
        tag := "div"
        className := toastClassName type
        cssText := "margin-bottom: 10px; min-width: 300px;"
        content := parseFragment (toastMarkup message)
        typeAttr := ""
        name := ""
        value := "" } := rfl

/-- What `showToast` does when a container exists. -/
theorem showToast_of_some (w : World) (message : String) (type : Option String) (i : Nat)
    (h : findId "toast-container" w.doc.body = some i) :
    showToast w message type =
      { w with
        doc := appendChild w.doc i (createToastElement w message (type.getD "info")).1
        nextNid := w.nextNid + 1
        nextTimer := w.nextTimer + 1
        timers := w.timers ++
          [{ id := w.nextTimer, due := w.now + 3000, callback := .removeToast w.nextNid }] } := by
  simp [showToast, getOrCreateToastContainer, getElementById, h, createToastElement, setTimeout]

/-- What `showToast` does when no container exists. -/
theorem showToast_of_none (w : World) (message : String) (type : Option String)
    (h : findId "toast-container" w.doc.body = none) :
    showToast w message type =
      { w with
        doc := { w.doc with
          body := w.doc.body ++
            [{ newToastContainer with
               children := [(createToastElement w message (type.getD "info")).1] }] }
        nextNid := w.nextNid + 1
        nextTimer := w.nextTimer + 1
        timers := w.timers ++
          [{ id := w.nextTimer, due := w.now + 3000, callback := .removeToast w.nextNid }] } := by
  simp [showToast, getOrCreateToastContainer, getElementById, h, createToastElement, setTimeout,
    appendChild, appendToBody, modifyAt_append_length, newToastContainer]

/-- The effect of `showToast` on the document: one toast more, at the end of
the container, and nothing else touched. -/
theorem showToast_doc (w : World) (message : String) (type : Option String) :
    childrenAt (showToast w message type).doc (getOrCreateToastContainer w).1 =
      childrenAt w.doc (getOrCreateToastContainer w).1 ++
        [(createToastElement w message (type.getD "info")).1] ∧
    (∀ j, j ≠ (getOrCreateToastContainer w).1 →
      childrenAt (showToast w message type).doc j = childrenAt w.doc j) ∧
    (showToast w message type).doc.badge = w.doc.badge ∧
    (showToast w message type).doc.searchSuggestions = w.doc.searchSuggestions ∧
    (showToast w message type).doc.brandGrid = w.doc.brandGrid := by
  cases h : findId "toast-container" w.doc.body with
  | some i =>
    have hi := findId_lt h
    rw [showToast_of_some w message type i h]
    have hg : (getOrCreateToastContainer w).1 = i := by
      simp [getOrCreateToastContainer, getElementById, h]
    rw [hg]
    refine ⟨childrenAt_appendChild_same _ _ _ hi, fun j hj => childrenAt_appendChild_other _ _ _ _ hj,
      rfl, rfl, rfl⟩
  | none =>
    rw [showToast_of_none w message type h]
    have hg : (getOrCreateToastContainer w).1 = w.doc.body.length := by
      simp [getOrCreateToastContainer, getElementById, h]
    rw [hg]
    refine ⟨?_, ?_, rfl, rfl, rfl⟩
    · simp [childrenAt]
    · intro j hj
      simp only [childrenAt]
      rcases Nat.lt_or_gt_of_ne hj with hlt | hgt
      · simp [List.getElem?_append_left hlt]
      · have h1 : (w.doc.body ++ [{ newToastContainer with
            children := [(createToastElement w message (type.getD "info")).1] }])[j]? = none := by
          apply List.getElem?_eq_none
          simp
          omega
        have h2 : w.doc.body[j]? = none := by
          apply List.getElem?_eq_none
          omega
        simp [h1, h2]

/-! ## Calls that may throw -/

/-- The state `addToCart` leaves: the given one when it throws, otherwise the
given one with one request more. -/
theorem addToCart_world (w : World) (productId quantity : JsVal) :
    (addToCart w productId quantity).world = w ∨
    ∃ r, (addToCart w productId quantity).world =
      { w with requests := w.requests ++ [r], inFlight := w.inFlight + 1 } := by
  simp only [addToCart]
  split
  · exact Or.inl rfl
  · split
    · exact Or.inl rfl
    · exact Or.inr ⟨_, rfl⟩

/-- The state `buyNow` leaves: the given one when it throws, otherwise the
given one with the form appended and submitted. -/
theorem buyNow_world (w : World) (productId quantity : JsVal) :
    (buyNow w productId quantity).world = w ∨
    ∃ p q, (buyNow w productId quantity).world =
      { w with
        nextNid := w.nextNid + 3
        doc := appendToBody w.doc (buyNowForm w p q)
        submissions := w.submissions ++ [buyNowForm w p q] } := by
  simp only [buyNow]
  split
  · exact Or.inl rfl
  · split
    · exact Or.inl rfl
    · exact Or.inr ⟨_, _, rfl⟩

/-! ## Frame facts: what the operations leave alone -/

theorem removeToast_csrfToken (w : World) (nid : Nat) :
    (removeToast w nid).csrfToken = w.csrfToken := by
  unfold removeToast; split <;> rfl

theorem fire_csrfToken (w : World) (t : Timer) : (fire w t).csrfToken = w.csrfToken := by
  unfold fire runCallback
  split
  · rfl
  · exact removeToast_csrfToken _ _

theorem foldl_fire_csrfToken (l : List Timer) (w : World) :
    (l.foldl fire w).csrfToken = w.csrfToken := by
  induction l generalizing w with
  | nil => rfl
  | cons t ts ih => simp [List.foldl, ih, fire_csrfToken]

theorem showToast_csrfToken (w : World) (message : String) (type : Option String) :
    (showToast w message type).csrfToken = w.csrfToken := by
  cases h : findId "toast-container" w.doc.body with
  | some i => rw [showToast_of_some w message type i h]
  | none => rw [showToast_of_none w message type h]

theorem updateCartCount_csrfToken (w : World) (c : Option JsNumber) :
    (updateCartCount w c).csrfToken = w.csrfToken := by
  unfold updateCartCount; split <;> rfl

theorem step_csrfToken (w : World) (op : Op) : (step w op).csrfToken = w.csrfToken := by
  cases op with
  | input value =>
    simp only [step, onInput]
    split
    · rfl
    · rename_i cl _
      cases hc : cl.searchTimeout <;> simp only [clearTimeout, setTimeout] <;> split <;>
        first | rfl | (split <;> rfl)
  | click e =>
    simp only [step, onDocumentClick]
    split
    · rfl
    · split <;> rfl
  | elapse dt => simp [step, elapse, foldl_fire_csrfToken]
  | showToast message type => exact showToast_csrfToken _ _ _
  | getOrCreateToastContainer =>
    simp only [step, getOrCreateToastContainer]
    split <;> rfl
  | addToCart productId quantity =>
    rcases addToCart_world w productId quantity with h | ⟨r, h⟩ <;> simp only [step, h]
  | settle outcome =>
    simp only [step]
    split
    · rfl
    · cases outcome with
      | transportError => simp [addToCartSettled, addToCartCatch, showToast_csrfToken]
      | parseError => simp [addToCartSettled, addToCartCatch, showToast_csrfToken]
      | nullBody => simp [addToCartSettled, addToCartCatch, showToast_csrfToken]
      | json data =>
        simp only [addToCartSettled, addToCartThen]
        split <;> simp [showToast_csrfToken, updateCartCount_csrfToken]
  | buyNow productId quantity =>
    rcases buyNow_world w productId quantity with h | ⟨p, q, h⟩ <;> simp only [step, h]
  | loadVehicleBrands =>
    simp only [step, loadVehicleBrands]
    split <;> rfl
  | dismiss nid => exact removeToast_csrfToken _ _

theorem run_csrfToken (ops : List Op) (w : World) : (run ops w).csrfToken = w.csrfToken := by
  induction ops generalizing w with
  | nil => rfl
  | cons op ops ih =>
    show (run ops (step w op)).csrfToken = w.csrfToken
    rw [ih, step_csrfToken]

theorem boot_csrfToken (page : Document) : (boot page).csrfToken = page.csrfField.getD "" := by
  have h : (boot page).csrfToken = readCsrfToken page := by
    simp only [boot, onDOMContentLoaded, loadVehicleBrands, initializeTooltips, initializeSearch,
      loadScript]
    split <;> split <;> rfl
  rw [h]
  unfold readCsrfToken jsOr
  cases page.csrfField with
  | none => rfl
  | some v => by_cases hv : v = "" <;> simp [hv]

theorem updateCartCount_body (w : World) (c : Option JsNumber) :
    (updateCartCount w c).doc.body = w.doc.body := by
  unfold updateCartCount; split <;> rfl

theorem getOrCreateToastContainer_congr (w v : World) (h : v.doc.body = w.doc.body) :
    (getOrCreateToastContainer v).1 = (getOrCreateToastContainer w).1 := by
  simp only [getOrCreateToastContainer, getElementById, h]
  split <;> simp [h]

theorem childrenAt_congr (d e : Document) (h : e.body = d.body) (i : Nat) :
    childrenAt e i = childrenAt d i := by
  simp [childrenAt, h]

/-! ## Frame facts for the search state -/

@[simp] theorem removeToast_search (w : World) (nid : Nat) :
    (removeToast w nid).search = w.search := by
  unfold removeToast; split <;> rfl

@[simp] theorem removeToast_timers (w : World) (nid : Nat) :
    (removeToast w nid).timers = w.timers := by
  unfold removeToast; split <;> rfl

@[simp] theorem removeToast_nextTimer (w : World) (nid : Nat) :
    (removeToast w nid).nextTimer = w.nextTimer := by
  unfold removeToast; split <;> rfl

@[simp] theorem removeToast_nextNid (w : World) (nid : Nat) :
    (removeToast w nid).nextNid = w.nextNid := by
  unfold removeToast; split <;> rfl

@[simp] theorem removeToast_now (w : World) (nid : Nat) :
    (removeToast w nid).now = w.now := by
  unfold removeToast; split <;> rfl

@[simp] theorem removeToast_fetchCalls (w : World) (nid : Nat) :
    (removeToast w nid).fetchCalls = w.fetchCalls := by
  unfold removeToast; split <;> rfl

@[simp] theorem removeToast_suggestions (w : World) (nid : Nat) :
    (removeToast w nid).doc.searchSuggestions = w.doc.searchSuggestions := by
  unfold removeToast; split <;> rfl

@[simp] theorem fire_search (w : World) (t : Timer) : (fire w t).search = w.search := by
  unfold fire runCallback; split <;> simp

@[simp] theorem fire_timers (w : World) (t : Timer) : (fire w t).timers = w.timers := by
  unfold fire runCallback; split <;> simp

@[simp] theorem fire_nextTimer (w : World) (t : Timer) : (fire w t).nextTimer = w.nextTimer := by
  unfold fire runCallback; split <;> simp

@[simp] theorem fire_nextNid (w : World) (t : Timer) : (fire w t).nextNid = w.nextNid := by
  unfold fire runCallback; split <;> simp

@[simp] theorem fire_suggestions (w : World) (t : Timer) :
    (fire w t).doc.searchSuggestions = w.doc.searchSuggestions := by
  unfold fire runCallback; split <;> simp

/-- A property every firing keeps is kept by firing a list of timers. -/
theorem foldl_fire_keeps (P : World → Prop) (h : ∀ w t, P w → P (fire w t)) (l : List Timer)
    (w : World) (hw : P w) : P (l.foldl fire w) := by
  induction l generalizing w with
  | nil => exact hw
  | cons t ts ih => exact ih _ (h w t hw)

@[simp] theorem foldl_fire_search (l : List Timer) (w : World) :
    (l.foldl fire w).search = w.search :=
  foldl_fire_keeps (fun v => v.search = w.search) (fun v t hv => by simpa using hv) l w rfl

@[simp] theorem foldl_fire_timers (l : List Timer) (w : World) :
    (l.foldl fire w).timers = w.timers :=
  foldl_fire_keeps (fun v => v.timers = w.timers) (fun v t hv => by simpa using hv) l w rfl

@[simp] theorem foldl_fire_nextTimer (l : List Timer) (w : World) :
    (l.foldl fire w).nextTimer = w.nextTimer :=
  foldl_fire_keeps (fun v => v.nextTimer = w.nextTimer) (fun v t hv => by simpa using hv) l w rfl

@[simp] theorem foldl_fire_nextNid (l : List Timer) (w : World) :
    (l.foldl fire w).nextNid = w.nextNid :=
  foldl_fire_keeps (fun v => v.nextNid = w.nextNid) (fun v t hv => by simpa using hv) l w rfl

@[simp] theorem foldl_fire_suggestions (l : List Timer) (w : World) :
    (l.foldl fire w).doc.searchSuggestions = w.doc.searchSuggestions :=
  foldl_fire_keeps (fun v => v.doc.searchSuggestions = w.doc.searchSuggestions)
    (fun v t hv => by simpa using hv) l w rfl

@[simp] theorem elapse_search (w : World) (dt : Nat) : (elapse w dt).search = w.search := by
  simp [elapse]

@[simp] theorem elapse_suggestions (w : World) (dt : Nat) :
    (elapse w dt).doc.searchSuggestions = w.doc.searchSuggestions := by
  simp [elapse]

@[simp] theorem elapse_timers (w : World) (dt : Nat) :
    (elapse w dt).timers = w.timers.filter (fun tm => !decide (tm.due ≤ w.now + dt)) := by
  simp [elapse]

@[simp] theorem elapse_nextTimer (w : World) (dt : Nat) :
    (elapse w dt).nextTimer = w.nextTimer := by
  simp [elapse]

@[simp] theorem elapse_nextNid (w : World) (dt : Nat) : (elapse w dt).nextNid = w.nextNid := by
  simp [elapse]

@[simp] theorem elapse_now (w : World) (dt : Nat) : (elapse w dt).now = w.now + dt := by
  simp [elapse]

@[simp] theorem showToast_search (w : World) (message : String) (type : Option String) :
    (showToast w message type).search = w.search := by
  cases h : findId "toast-container" w.doc.body with
  | some i => rw [showToast_of_some w message type i h]
  | none => rw [showToast_of_none w message type h]

@[simp] theorem showToast_suggestions (w : World) (message : String) (type : Option String) :
    (showToast w message type).doc.searchSuggestions = w.doc.searchSuggestions :=
  (showToast_doc w message type).2.2.2.1

@[simp] theorem showToast_timers (w : World) (message : String) (type : Option String) :
    (showToast w message type).timers =
      w.timers ++ [{ id := w.nextTimer, due := w.now + 3000, callback := .removeToast w.nextNid }] := by
  cases h : findId "toast-container" w.doc.body with
  | some i => rw [showToast_of_some w message type i h]
  | none => rw [showToast_of_none w message type h]

@[simp] theorem showToast_nextTimer (w : World) (message : String) (type : Option String) :
    (showToast w message type).nextTimer = w.nextTimer + 1 := by
  cases h : findId "toast-container" w.doc.body with
  | some i => rw [showToast_of_some w message type i h]
  | none => rw [showToast_of_none w message type h]

@[simp] theorem showToast_nextNid (w : World) (message : String) (type : Option String) :
    (showToast w message type).nextNid = w.nextNid + 1 := by
  cases h : findId "toast-container" w.doc.body with
  | some i => rw [showToast_of_some w message type i h]
  | none => rw [showToast_of_none w message type h]

@[simp] theorem showToast_now (w : World) (message : String) (type : Option String) :
    (showToast w message type).now = w.now := by
  cases h : findId "toast-container" w.doc.body with
  | some i => rw [showToast_of_some w message type i h]
  | none => rw [showToast_of_none w message type h]

@[simp] theorem showToast_fetchCalls (w : World) (message : String) (type : Option String) :
    (showToast w message type).fetchCalls = w.fetchCalls := by
  cases h : findId "toast-container" w.doc.body with
  | some i => rw [showToast_of_some w message type i h]
  | none => rw [showToast_of_none w message type h]

@[simp] theorem updateCartCount_search (w : World) (c : Option JsNumber) :
    (updateCartCount w c).search = w.search := by
  unfold updateCartCount; split <;> rfl

@[simp] theorem updateCartCount_timers (w : World) (c : Option JsNumber) :
    (updateCartCount w c).timers = w.timers := by
  unfold updateCartCount; split <;> rfl

@[simp] theorem updateCartCount_nextTimer (w : World) (c : Option JsNumber) :
    (updateCartCount w c).nextTimer = w.nextTimer := by
  unfold updateCartCount; split <;> rfl

@[simp] theorem updateCartCount_nextNid (w : World) (c : Option JsNumber) :
    (updateCartCount w c).nextNid = w.nextNid := by
  unfold updateCartCount; split <;> rfl

@[simp] theorem updateCartCount_now (w : World) (c : Option JsNumber) :
    (updateCartCount w c).now = w.now := by
  unfold updateCartCount; split <;> rfl

@[simp] theorem updateCartCount_fetchCalls (w : World) (c : Option JsNumber) :
    (updateCartCount w c).fetchCalls = w.fetchCalls := by
  unfold updateCartCount; split <;> rfl

@[simp] theorem updateCartCount_suggestions (w : World) (c : Option JsNumber) :
    (updateCartCount w c).doc.searchSuggestions = w.doc.searchSuggestions := by
  unfold updateCartCount; split <;> rfl

/-- The settling of an `addToCart` promise chain is one `showToast`, on a
world that differs from the given one at most in the badge and the console. -/
theorem addToCartSettled_eq_showToast (w : World) (o : FetchOutcome) :
    ∃ (v : World) (message : String) (type : Option String),
      addToCartSettled w o = showToast v message type ∧
      v.search = w.search ∧ v.timers = w.timers ∧ v.nextTimer = w.nextTimer ∧
      v.nextNid = w.nextNid ∧ v.now = w.now ∧ v.fetchCalls = w.fetchCalls ∧
      v.doc.searchSuggestions = w.doc.searchSuggestions ∧ v.doc.body = w.doc.body := by
  cases o with
  | transportError =>
    exact ⟨_, _, _, rfl, rfl, rfl, rfl, rfl, rfl, rfl, rfl, rfl⟩
  | parseError =>
    exact ⟨_, _, _, rfl, rfl, rfl, rfl, rfl, rfl, rfl, rfl, rfl⟩
  | nullBody =>
    exact ⟨_, _, _, rfl, rfl, rfl, rfl, rfl, rfl, rfl, rfl, rfl⟩
  | json data =>
    by_cases hs : data.success = true
    · refine ⟨updateCartCount w data.cart_count, "Product added to cart!", some "success", ?_⟩
      simp [addToCartSettled, addToCartThen, hs, updateCartCount_body]
    · refine ⟨w, interpolate data.message, some "error", ?_⟩
      simp [addToCartSettled, addToCartThen, hs]

/-- The shape of a step that involves no timer, toast or search listener. -/
theorem onInput_cases (w : World) (value : String) :
    (w.search = none ∧ onInput w value = w) ∨
    (∃ cl, w.search = some cl ∧ 2 ≤ jsLength (jsTrim value) ∧
      onInput w value =
        { clearTimeout w cl.searchTimeout with
          nextTimer := w.nextTimer + 1
          timers := (clearTimeout w cl.searchTimeout).timers ++
            [{ id := w.nextTimer, due := w.now + 300,
               callback := .fetchSearchSuggestions (jsTrim value) }]
          search := some { cl with searchTimeout := some w.nextTimer } }) ∨
    (∃ cl, w.search = some cl ∧ jsLength (jsTrim value) < 2 ∧ cl.suggestionsDiv = true ∧
      onInput w value =
        { clearTimeout w cl.searchTimeout with
          doc := hideSuggestions w.doc }) ∨
    (∃ cl, w.search = some cl ∧ jsLength (jsTrim value) < 2 ∧ cl.suggestionsDiv = false ∧
      onInput w value = clearTimeout w cl.searchTimeout) := by
  cases hs : w.search with
  | none => left; simp [onInput, hs]
  | some cl =>
    right
    have hct : ∀ o, (clearTimeout w o).nextTimer = w.nextTimer ∧ (clearTimeout w o).now = w.now ∧
        (clearTimeout w o).doc = w.doc := by
      intro o; cases o <;> simp [clearTimeout]
    by_cases hl : 2 ≤ jsLength (jsTrim value)
    · left
      refine ⟨cl, rfl, hl, ?_⟩
      simp [onInput, hs, hl, setTimeout, (hct cl.searchTimeout).1, (hct cl.searchTimeout).2.1]
    · right
      by_cases hd : cl.suggestionsDiv = true
      · left
        refine ⟨cl, rfl, by omega, hd, ?_⟩
        simp [onInput, hs, hl, hd, (hct cl.searchTimeout).2.2]
      · right
        refine ⟨cl, rfl, by omega, by simpa using hd, ?_⟩
        simp [onInput, hs, hl, hd]

@[simp] theorem clearTimeout_search (w : World) (o : Option Nat) :
    (clearTimeout w o).search = w.search := by
  cases o <;> rfl

@[simp] theorem clearTimeout_doc (w : World) (o : Option Nat) :
    (clearTimeout w o).doc = w.doc := by
  cases o <;> rfl

@[simp] theorem clearTimeout_nextTimer (w : World) (o : Option Nat) :
    (clearTimeout w o).nextTimer = w.nextTimer := by
  cases o <;> rfl

@[simp] theorem clearTimeout_nextNid (w : World) (o : Option Nat) :
    (clearTimeout w o).nextNid = w.nextNid := by
  cases o <;> rfl

@[simp] theorem clearTimeout_now (w : World) (o : Option Nat) :
    (clearTimeout w o).now = w.now := by
  cases o <;> rfl

@[simp] theorem clearTimeout_fetchCalls (w : World) (o : Option Nat) :
    (clearTimeout w o).fetchCalls = w.fetchCalls := by
  cases o <;> rfl

theorem hideSuggestions_isSome (d : Document) :
    (hideSuggestions d).searchSuggestions.isSome = d.searchSuggestions.isSome := by
  simp [hideSuggestions]

/-- How an operation other than an input event touches the search state and
the timers: the closure is kept, the panel stays in the document, and the timers
are either kept, or thinned by the clock, or extended by one toast timer. -/
theorem step_search_timers (w : World) (op : Op) :
    (∃ value, op = .input value) ∨
    ((step w op).search = w.search ∧
      (step w op).doc.searchSuggestions.isSome = w.doc.searchSuggestions.isSome ∧
      (((step w op).timers = w.timers ∧ (step w op).nextTimer = w.nextTimer ∧
          (step w op).now = w.now) ∨
        (∃ dt, op = .elapse dt ∧
          (step w op).timers = w.timers.filter (fun tm => !decide (tm.due ≤ w.now + dt)) ∧
          (step w op).nextTimer = w.nextTimer) ∨
        (∃ nid due, (step w op).timers =
            w.timers ++ [{ id := w.nextTimer, due := due, callback := .removeToast nid }] ∧
          (step w op).nextTimer = w.nextTimer + 1 ∧ (step w op).now = w.now))) := by
  cases op with
  | input value => exact Or.inl ⟨value, rfl⟩
  | click e =>
    right
    simp only [step, onDocumentClick]
    split
    · exact ⟨rfl, rfl, Or.inl ⟨rfl, rfl, rfl⟩⟩
    · split
      · exact ⟨rfl, hideSuggestions_isSome _, Or.inl ⟨rfl, rfl, rfl⟩⟩
      · exact ⟨rfl, rfl, Or.inl ⟨rfl, rfl, rfl⟩⟩
  | elapse dt =>
    right
    refine ⟨by simp [step], by simp [step], Or.inr (Or.inl ⟨dt, rfl, by simp [step], by simp [step]⟩)⟩
  | showToast message type =>
    right
    exact ⟨by simp [step], by simp [step],
      Or.inr (Or.inr ⟨w.nextNid, w.now + 3000, by simp [step], by simp [step], by simp [step]⟩)⟩
  | getOrCreateToastContainer =>
    right
    simp only [step, getOrCreateToastContainer]
    split
    · exact ⟨rfl, rfl, Or.inl ⟨rfl, rfl, rfl⟩⟩
    · exact ⟨rfl, rfl, Or.inl ⟨rfl, rfl, rfl⟩⟩
  | addToCart productId quantity =>
    right
    rcases addToCart_world w productId quantity with h | ⟨r, h⟩ <;>
      rw [show step w (.addToCart productId quantity) = (addToCart w productId quantity).world
        from rfl, h] <;>
      exact ⟨rfl, rfl, Or.inl ⟨rfl, rfl, rfl⟩⟩
  | settle outcome =>
    right
    simp only [step]
    split
    · exact ⟨rfl, rfl, Or.inl ⟨rfl, rfl, rfl⟩⟩
    · obtain ⟨v, message, type, he, h1, h2, h3, h4, h5, -, h7, -⟩ :=
        addToCartSettled_eq_showToast { w with inFlight := w.inFlight - 1 } outcome
      rw [he]
      refine ⟨by simp [h1], by simp [h7], Or.inr (Or.inr ⟨v.nextNid, v.now + 3000, ?_, ?_, ?_⟩)⟩
      · simp [h2, h3]
      · simp [h3]
      · simp [h5]
  | buyNow productId quantity =>
    right
    rcases buyNow_world w productId quantity with h | ⟨p, q, h⟩ <;>
      rw [show step w (.buyNow productId quantity) = (buyNow w productId quantity).world
        from rfl, h] <;>
      exact ⟨rfl, rfl, Or.inl ⟨rfl, rfl, rfl⟩⟩
  | loadVehicleBrands =>
    right
    simp only [step, loadVehicleBrands]
    split
    · exact ⟨rfl, rfl, Or.inl ⟨rfl, rfl, rfl⟩⟩
    · exact ⟨rfl, rfl, Or.inl ⟨rfl, rfl, rfl⟩⟩
  | dismiss nid =>
    right
    exact ⟨by simp [step], by simp [step], Or.inl ⟨by simp [step], by simp [step], by simp [step]⟩⟩

/-- A property every operation keeps holds after any sequence of operations. -/
theorem run_keeps (P : World → Prop) (h : ∀ w op, P w → P (step w op)) (ops : List Op)
    (w : World) (hw : P w) : P (run ops w) := by
  induction ops generalizing w with
  | nil => exact hw
  | cons op ops ih => exact ih _ (h w op hw)

theorem loadVehicleBrands_frame (w : World) :
    (loadVehicleBrands w).search = w.search ∧
    (loadVehicleBrands w).doc.searchSuggestions = w.doc.searchSuggestions ∧
    (loadVehicleBrands w).timers = w.timers ∧
    (loadVehicleBrands w).fetchCalls = w.fetchCalls ∧
    (loadVehicleBrands w).now = w.now ∧
    (loadVehicleBrands w).nextNid = w.nextNid ∧
    (loadVehicleBrands w).nextTimer = w.nextTimer ∧
    (loadVehicleBrands w).doc.body = w.doc.body := by
  unfold loadVehicleBrands
  split <;> exact ⟨rfl, rfl, rfl, rfl, rfl, rfl, rfl, rfl⟩

theorem initializeSearch_frame (w : World) :
    (initializeSearch w).doc = w.doc ∧
    (initializeSearch w).timers = w.timers ∧
    (initializeSearch w).fetchCalls = w.fetchCalls ∧
    (initializeSearch w).now = w.now ∧
    (initializeSearch w).nextNid = w.nextNid ∧
    (initializeSearch w).nextTimer = w.nextTimer := by
  unfold initializeSearch
  split <;> exact ⟨rfl, rfl, rfl, rfl, rfl, rfl⟩

theorem boot_search (page : Document) :
    (boot page).search =
      if page.searchInput then
        some { suggestionsDiv := page.searchSuggestions.isSome, searchTimeout := none }
      else none := by
  simp only [boot, onDOMContentLoaded, (loadVehicleBrands_frame _).1]
  simp only [initializeTooltips, initializeSearch, loadScript]
  cases page.searchInput <;> rfl

theorem boot_suggestions (page : Document) :
    (boot page).doc.searchSuggestions = page.searchSuggestions := by
  simp only [boot, onDOMContentLoaded, (loadVehicleBrands_frame _).2.1]
  simp only [initializeTooltips, (initializeSearch_frame _).1]
  rfl

theorem boot_body (page : Document) : (boot page).doc.body = page.body := by
  simp only [boot, onDOMContentLoaded, (loadVehicleBrands_frame _).2.2.2.2.2.2.2]
  simp only [initializeTooltips, (initializeSearch_frame _).1]
  rfl

theorem boot_timers (page : Document) :
    (boot page).timers = [] ∧ (boot page).fetchCalls = [] ∧ (boot page).now = 0 ∧
    (boot page).nextNid = freshNid page ∧ (boot page).nextTimer = 1 := by
  simp only [boot, onDOMContentLoaded, (loadVehicleBrands_frame _).2.2.1,
    (loadVehicleBrands_frame _).2.2.2.1, (loadVehicleBrands_frame _).2.2.2.2.1,
    (loadVehicleBrands_frame _).2.2.2.2.2.1, (loadVehicleBrands_frame _).2.2.2.2.2.2.1]
  simp only [initializeTooltips, (initializeSearch_frame _).2.1, (initializeSearch_frame _).2.2.1,
    (initializeSearch_frame _).2.2.2.1, (initializeSearch_frame _).2.2.2.2.1,
    (initializeSearch_frame _).2.2.2.2.2]
  exact ⟨rfl, rfl, rfl, rfl, rfl⟩

theorem wired_boot (page : Document) : Wired page (boot page) := by
  refine ⟨?_, ?_, ?_⟩
  · rw [boot_search]; cases page.searchInput <;> rfl
  · intro cl hcl
    rw [boot_search] at hcl
    cases hi : page.searchInput <;> simp [hi] at hcl
    rw [← hcl]
  · rw [boot_suggestions]

theorem wired_step (page : Document) (w : World) (op : Op) (h : Wired page w) :
    Wired page (step w op) := by
  obtain ⟨h1, h2, h3⟩ := h
  rcases step_search_timers w op with ⟨value, rfl⟩ | ⟨hs, hd, -⟩
  · rcases onInput_cases w value with ⟨-, he⟩ | ⟨cl, hcl, -, he⟩ | ⟨cl, hcl, -, -, he⟩ |
      ⟨cl, hcl, -, -, he⟩
    · simp only [step, he]; exact ⟨h1, h2, h3⟩
    · simp only [step, he]
      refine ⟨by simpa [hcl] using h1, ?_, by simpa using h3⟩
      intro cl' hcl'
      simp at hcl'
      rw [← hcl']
      exact h2 cl hcl
    · simp only [step, he]
      exact ⟨by simpa using h1, by simpa using h2, by simpa [hideSuggestions_isSome] using h3⟩
    · simp only [step, he]
      exact ⟨by simpa using h1, by simpa using h2, by simpa using h3⟩
  · exact ⟨by rw [hs]; exact h1, by rw [hs]; exact h2, by rw [hd]; exact h3⟩

theorem wired_run (page : Document) (ops : List Op) : Wired page (run ops (boot page)) :=
  run_keeps (Wired page) (wired_step page) ops _ (wired_boot page)

/-! ## The timer invariant -/

theorem filterMap_fetchOf_filter (p : Nat → Bool) (l : List Timer) :
    (l.filter (fun tm => p tm.due)).filterMap fetchOf =
      (l.filterMap fetchOf).filter (fun e => p e.1) := by
  induction l with
  | nil => rfl
  | cons t ts ih =>
    cases hc : t.callback with
    | fetchSearchSuggestions q =>
      have hf : fetchOf t = some (t.due, q) := by simp [fetchOf, hc]
      by_cases hp : p t.due = true
      · simp [List.filter_cons, List.filterMap_cons, hp, hf, ih]
      · simp [List.filter_cons, List.filterMap_cons, hp, hf, ih]
    | removeToast nid =>
      have hf : fetchOf t = none := by simp [fetchOf, hc]
      by_cases hp : p t.due = true
      · simp [List.filter_cons, List.filterMap_cons, hp, hf, ih]
      · simp [List.filter_cons, List.filterMap_cons, hp, hf, ih]

theorem pendingFetches_elapse (w : World) (dt : Nat) :
    pendingFetches (elapse w dt) =
      (pendingFetches w).filter (fun e => !decide (e.1 ≤ w.now + dt)) := by
  simp only [pendingFetches, elapse_timers]
  exact filterMap_fetchOf_filter (fun d => !decide (d ≤ w.now + dt)) w.timers

theorem fire_fetchCalls (w : World) (t : Timer) :
    (fire w t).fetchCalls = w.fetchCalls ++ (fetchOf t).toList := by
  unfold fire runCallback fetchOf
  split <;> rename_i h <;> simp [h]

theorem foldl_fire_fetchCalls (l : List Timer) (w : World) :
    (l.foldl fire w).fetchCalls = w.fetchCalls ++ l.filterMap fetchOf := by
  induction l generalizing w with
  | nil => simp
  | cons t ts ih =>
    simp only [List.foldl, ih, fire_fetchCalls, List.filterMap_cons]
    cases fetchOf t <;> simp

/-- The fetches a clock advance fires are the pending ones that fall due. -/
theorem fetchCalls_elapse_perm (w : World) (dt : Nat) :
    ∃ fired, (elapse w dt).fetchCalls = w.fetchCalls ++ fired ∧
      fired.Perm ((pendingFetches w).filter (fun e => decide (e.1 ≤ w.now + dt))) := by
  refine ⟨(dueTimers w (w.now + dt)).filterMap fetchOf, ?_, ?_⟩
  · simp [elapse, foldl_fire_fetchCalls]
  · have h1 : (dueTimers w (w.now + dt)).Perm
        (w.timers.filter (fun tm => decide (tm.due ≤ w.now + dt))) :=
      List.perm_insertionSort _ _
    have h2 := h1.filterMap fetchOf
    rw [filterMap_fetchOf_filter (fun d => decide (d ≤ w.now + dt))] at h2
    exact h2

theorem fetchCalls_elapse_of_nil (w : World) (dt : Nat) (h : pendingFetches w = []) :
    (elapse w dt).fetchCalls = w.fetchCalls := by
  obtain ⟨fired, he, hp⟩ := fetchCalls_elapse_perm w dt
  rw [h] at hp
  simp at hp
  simp [he, hp]

theorem fetchCalls_elapse_of_single (w : World) (dt : Nat) (e : Nat × String)
    (h : pendingFetches w = [e]) :
    (elapse w dt).fetchCalls = w.fetchCalls ++ (if e.1 ≤ w.now + dt then [e] else []) := by
  obtain ⟨fired, he, hp⟩ := fetchCalls_elapse_perm w dt
  rw [h] at hp
  by_cases hd : e.1 ≤ w.now + dt
  · simp [hd] at hp
    simp [he, hp, hd]
  · simp [hd] at hp
    simp [he, hp, hd]

theorem timersOk_boot (page : Document) : TimersOk (boot page) := by
  unfold TimersOk pendingFetches
  rw [(boot_timers page).1]
  simp

theorem filterMap_length_filter_le (p : Timer → Bool) (l : List Timer) :
    ((l.filter p).filterMap fetchOf).length ≤ (l.filterMap fetchOf).length :=
  (List.Sublist.filterMap fetchOf (List.filter_sublist l)).length_le

/-- Clearing the timer `searchTimeout` names leaves no suggestion fetch
pending. -/
theorem pendingFetches_clearTimeout (w : World) (cl : SearchClosure) (h : TimersOk w)
    (hs : w.search = some cl) : pendingFetches (clearTimeout w cl.searchTimeout) = [] := by
  obtain ⟨-, h2, -⟩ := h
  unfold pendingFetches
  rw [List.filterMap_eq_nil_iff]
  intro t ht
  cases hf : fetchOf t with
  | none => rfl
  | some e =>
    exfalso
    cases hc : cl.searchTimeout with
    | none =>
      rw [hc] at ht
      obtain ⟨cl', hcl', hid⟩ := h2 t ht (by simp [hf])
      rw [hs] at hcl'
      cases hcl'
      rw [hc] at hid
      cases hid
    | some sid =>
      rw [hc] at ht
      simp only [clearTimeout, List.mem_filter] at ht
      obtain ⟨htm, hne⟩ := ht
      obtain ⟨cl', hcl', hid⟩ := h2 t htm (by simp [hf])
      rw [hs] at hcl'
      cases hcl'
      rw [hc] at hid
      cases hid
      simp at hne

theorem clearTimeout_timers_subset (w : World) (o : Option Nat) :
    ∀ t ∈ (clearTimeout w o).timers, t ∈ w.timers := by
  intro t ht
  cases o with
  | none => exact ht
  | some i => exact (List.mem_filter.mp ht).1

theorem timersOk_step (w : World) (op : Op) (h : TimersOk w) : TimersOk (step w op) := by
  have h' := h
  obtain ⟨h1, h2, h3⟩ := h
  rcases step_search_timers w op with ⟨value, rfl⟩ | ⟨hs, -, ht⟩
  · rcases onInput_cases w value with ⟨-, he⟩ | ⟨cl, hcl, -, he⟩ | ⟨cl, hcl, -, -, he⟩ |
      ⟨cl, hcl, -, -, he⟩
    · simp only [step, he]; exact h'
    · have hnil := pendingFetches_clearTimeout w cl h' hcl
      simp only [step, he]
      refine ⟨?_, ?_, ?_⟩
      · intro t ht
        simp only [List.mem_append, List.mem_singleton] at ht
        rcases ht with ht | rfl
        · have := h1 t (clearTimeout_timers_subset w _ t ht)
          simp only [clearTimeout_nextTimer]
          omega
        · simp
      · intro t ht hf
        simp only [List.mem_append, List.mem_singleton] at ht
        rcases ht with ht | rfl
        · exfalso
          unfold pendingFetches at hnil
          rw [List.filterMap_eq_nil_iff] at hnil
          rw [hnil t ht] at hf
          simp at hf
        · exact ⟨_, rfl, rfl⟩
      · unfold pendingFetches at hnil ⊢
        simp [List.filterMap_append, hnil, fetchOf]
    · have hnil := pendingFetches_clearTimeout w cl h' hcl
      simp only [step, he]
      refine ⟨?_, ?_, ?_⟩
      · intro t ht
        simpa using h1 t (clearTimeout_timers_subset w _ t ht)
      · intro t ht hf
        have := h2 t (clearTimeout_timers_subset w _ t ht) hf
        simpa using this
      · unfold pendingFetches at hnil ⊢
        simp [hnil]
    · have hnil := pendingFetches_clearTimeout w cl h' hcl
      simp only [step, he]
      refine ⟨?_, ?_, ?_⟩
      · intro t ht
        simpa using h1 t (clearTimeout_timers_subset w _ t ht)
      · intro t ht hf
        have := h2 t (clearTimeout_timers_subset w _ t ht) hf
        simpa using this
      · rw [hnil]; simp
  · rcases ht with ⟨e1, e2, -⟩ | ⟨dt, -, e1, e2⟩ | ⟨nid, due, e1, e2, -⟩
    · refine ⟨?_, ?_, ?_⟩
      · rw [e1, e2]; exact h1
      · rw [e1, hs]; exact h2
      · unfold pendingFetches at h3 ⊢
        rw [e1]; exact h3
    · refine ⟨?_, ?_, ?_⟩
      · rw [e1, e2]
        intro t ht
        exact h1 t (List.mem_filter.mp ht).1
      · rw [e1, hs]
        intro t ht
        exact h2 t (List.mem_filter.mp ht).1
      · unfold pendingFetches at h3 ⊢
        rw [e1]
        exact le_trans (filterMap_length_filter_le _ _) h3
    · refine ⟨?_, ?_, ?_⟩
      · rw [e1, e2]
        intro t ht
        simp only [List.mem_append, List.mem_singleton] at ht
        rcases ht with ht | rfl
        · have := h1 t ht
          omega
        · simp
      · rw [e1, hs]
        intro t ht hf
        simp only [List.mem_append, List.mem_singleton] at ht
        rcases ht with ht | rfl
        · exact h2 t ht hf
        · simp [fetchOf] at hf
      · unfold pendingFetches at h3 ⊢
        rw [e1]
        simpa [List.filterMap_append, fetchOf] using h3

theorem timersOk_run (page : Document) (ops : List Op) : TimersOk (run ops (boot page)) :=
  run_keeps TimersOk timersOk_step ops _ (timersOk_boot page)

theorem timersOk_elapse (w : World) (dt : Nat) (h : TimersOk w) : TimersOk (elapse w dt) :=
  timersOk_step w (.elapse dt) h

theorem timersOk_onInput (w : World) (value : String) (h : TimersOk w) :
    TimersOk (onInput w value) :=
  timersOk_step w (.input value) h

/-- What an input event leaves pending: the fetch it schedules, if any. -/
theorem onInput_pending (w : World) (value : String) (cl : SearchClosure) (h : TimersOk w)
    (hs : w.search = some cl) :
    pendingFetches (onInput w value) =
      (if 2 ≤ jsLength (jsTrim value) then [(w.now + 300, jsTrim value)] else []) ∧
    (onInput w value).fetchCalls = w.fetchCalls ∧
    (onInput w value).now = w.now ∧
    (onInput w value).search.isSome = true := by
  have hnil := pendingFetches_clearTimeout w cl h hs
  rcases onInput_cases w value with ⟨hn, -⟩ | ⟨cl', hcl, hl, he⟩ | ⟨cl', hcl, hl, -, he⟩ |
    ⟨cl', hcl, hl, -, he⟩
  · rw [hs] at hn; cases hn
  · rw [hs] at hcl; cases hcl
    rw [he]
    refine ⟨?_, by simp, by simp, rfl⟩
    unfold pendingFetches at hnil ⊢
    simp [List.filterMap_append, hnil, fetchOf, hl]
  · rw [hs] at hcl; cases hcl
    rw [he]
    have hl' : ¬ 2 ≤ jsLength (jsTrim value) := by omega
    refine ⟨?_, by simp, by simp, by simp [hs]⟩
    unfold pendingFetches at hnil ⊢
    simp [hnil, hl']
  · rw [hs] at hcl; cases hcl
    rw [he]
    have hl' : ¬ 2 ≤ jsLength (jsTrim value) := by omega
    refine ⟨?_, by simp, by simp, by simp [hs]⟩
    simp [hnil, hl']

/-! ## Trimming never lengthens -/

theorem unitsLength_append (a b : List Char) :
    unitsLength (a ++ b) = unitsLength a + unitsLength b := by
  induction a with
  | nil => simp [unitsLength]
  | cons c cs ih => simp [unitsLength, ih, Nat.add_assoc]

theorem unitsLength_reverse (l : List Char) : unitsLength l.reverse = unitsLength l := by
  induction l with
  | nil => rfl
  | cons c cs ih => simp [unitsLength, unitsLength_append, ih, Nat.add_comm]

theorem unitsLength_dropWhile_le (p : Char → Bool) (l : List Char) :
    unitsLength (l.dropWhile p) ≤ unitsLength l := by
  induction l with
  | nil => simp
  | cons c cs ih =>
    by_cases hp : p c = true
    · simp only [List.dropWhile_cons, hp, if_true, unitsLength]
      omega
    · simp [List.dropWhile_cons, hp]

theorem jsLength_jsTrim_le (s : String) : jsLength (jsTrim s) ≤ jsLength s := by
  simp only [jsLength, jsTrim, trimChars, unitsLength_reverse]
  exact le_trans (unitsLength_dropWhile_le _ _)
    (by rw [unitsLength_reverse]; exact unitsLength_dropWhile_le _ _)

/-! ## Bursts of input events -/

theorem onInput_search_isSome (w : World) (value : String) (h : w.search.isSome = true) :
    (onInput w value).search.isSome = true := by
  rcases onInput_cases w value with ⟨-, he⟩ | ⟨cl, -, -, he⟩ | ⟨cl, -, -, -, he⟩ |
    ⟨cl, -, -, -, he⟩ <;> rw [he] <;> simp [h]

theorem typing_keeps (w : World) (evs : List (Nat × String)) (h : TimersOk w)
    (hs : w.search.isSome = true) :
    TimersOk (typing w evs) ∧ (typing w evs).search.isSome = true := by
  induction evs generalizing w with
  | nil => exact ⟨h, hs⟩
  | cons e rest ih =>
    obtain ⟨g, v⟩ := e
    exact ih _ (timersOk_onInput _ _ (timersOk_elapse _ _ h))
      (onInput_search_isSome _ _ (by simpa using hs))

/-- An input event cancels whatever suggestion fetch was pending. -/
theorem onInput_cancels (w : World) (value : String) (h : TimersOk w)
    (hs : w.search.isSome = true) :
    ∀ t ∈ w.timers, (fetchOf t).isSome → t ∉ (onInput w value).timers := by
  intro t ht hf hmem
  obtain ⟨h1, h2, -⟩ := h
  obtain ⟨cl, hcl, hid⟩ := h2 t ht hf
  have hclear : t ∉ (clearTimeout w cl.searchTimeout).timers := by
    rw [hid]
    simp [clearTimeout]
  rcases onInput_cases w value with ⟨hn, -⟩ | ⟨cl', hcl', -, he⟩ | ⟨cl', hcl', -, -, he⟩ |
    ⟨cl', hcl', -, -, he⟩
  · rw [hn] at hs; simp at hs
  · rw [hcl] at hcl'; cases hcl'
    rw [he] at hmem
    simp only [List.mem_append, List.mem_singleton] at hmem
    rcases hmem with hm | rfl
    · exact hclear hm
    · have := h1 _ ht
      simp at this
  · rw [hcl] at hcl'; cases hcl'
    rw [he] at hmem
    exact hclear hmem
  · rw [hcl] at hcl'; cases hcl'
    rw [he] at hmem
    exact hclear hmem

/-- Debounce collapsing, from any state that satisfies the timer invariant. -/
theorem typing_fetchCalls (evs : List (Nat × String)) :
    ∀ (w : World) (v0 : String), TimersOk w → w.search.isSome = true →
      (∀ e ∈ evs, e.1 < 300) → ∀ T, 300 ≤ T →
      (elapse (typing (onInput w v0) evs) T).fetchCalls =
        w.fetchCalls ++
          (if 2 ≤ jsLength (jsTrim (lastValue v0 evs)) then
            [((typing (onInput w v0) evs).now + 300, jsTrim (lastValue v0 evs))]
          else []) := by
  induction evs with
  | nil =>
    intro w v0 h hs _ T hT
    obtain ⟨cl, hcl⟩ := Option.isSome_iff_exists.mp hs
    obtain ⟨hp, hf, hn, -⟩ := onInput_pending w v0 cl h hcl
    simp only [typing, lastValue]
    by_cases hl : 2 ≤ jsLength (jsTrim v0)
    · rw [if_pos hl] at hp
      rw [fetchCalls_elapse_of_single _ T _ hp, hf, hn]
      have : w.now + 300 ≤ w.now + T := by omega
      simp [hl, this]
    · rw [if_neg hl] at hp
      rw [fetchCalls_elapse_of_nil _ T hp, hf]
      simp [hl]
  | cons e rest ih =>
    intro w v0 h hs hg T hT
    obtain ⟨g, v⟩ := e
    obtain ⟨cl, hcl⟩ := Option.isSome_iff_exists.mp hs
    obtain ⟨hp, hf, hn, hs1⟩ := onInput_pending w v0 cl h hcl
    have hg0 : g < 300 := hg (g, v) (by simp)
    have hok1 := timersOk_onInput w v0 h
    have hok2 := timersOk_elapse (onInput w v0) g hok1
    have hs2 : (elapse (onInput w v0) g).search.isSome = true := by simpa using hs1
    have hcalls : (elapse (onInput w v0) g).fetchCalls = w.fetchCalls := by
      by_cases hl : 2 ≤ jsLength (jsTrim v0)
      · rw [if_pos hl] at hp
        rw [fetchCalls_elapse_of_single _ g _ hp, hf, hn]
        have : ¬ w.now + 300 ≤ w.now + g := by omega
        simp [this]
      · rw [if_neg hl] at hp
        rw [fetchCalls_elapse_of_nil _ g hp, hf]
    have := ih (elapse (onInput w v0) g) v hok2 hs2
      (fun e he => hg e (List.mem_cons_of_mem _ he)) T hT
    simp only [typing, lastValue]
    rw [this, hcalls]

/-! ## The ids of the body elements -/

theorem findId_ids_congr (id : String) (l l' : List Element)
    (h : l.map (fun e => e.idAttr) = l'.map (fun e => e.idAttr)) : findId id l = findId id l' := by
  induction l generalizing l' with
  | nil =>
    cases l' with
    | nil => rfl
    | cons e es => simp at h
  | cons x xs ih =>
    cases l' with
    | nil => simp at h
    | cons e es =>
      simp only [List.map_cons, List.cons.injEq] at h
      simp only [findId, h.1, ih es h.2]

theorem findId_eq_none_iff (id : String) (l : List Element) :
    findId id l = none ↔ id ∉ l.map (fun e => e.idAttr) := by
  induction l with
  | nil => simp [findId]
  | cons x xs ih =>
    by_cases hx : x.idAttr = id
    · simp [findId, hx]
    · have hx' : ¬ id = x.idAttr := fun e => hx e.symm
      simp [findId, hx, hx', ih]

theorem findId_append_of_some (id : String) (l l' : List Element) (i : Nat)
    (h : findId id l = some i) : findId id (l ++ l') = some i := by
  induction l generalizing i with
  | nil => simp [findId] at h
  | cons x xs ih =>
    by_cases hx : x.idAttr = id
    · simpa [findId, hx] using h
    · simp only [findId, hx, if_false, List.cons_append] at h ⊢
      cases hf : findId id xs with
      | none => simp [hf] at h
      | some k => simp [ih k hf, hf] at h ⊢; exact h

theorem findId_append_of_none (id : String) (l : List Element) (e : Element)
    (h : findId id l = none) (he : e.idAttr = id) : findId id (l ++ [e]) = some l.length := by
  induction l with
  | nil => simp [findId, he]
  | cons x xs ih =>
    by_cases hx : x.idAttr = id
    · simp [findId, hx] at h
    · simp only [findId, hx, if_false, Option.map_eq_none'] at h
      simp [findId, hx, ih h]

theorem topCount_eq (d : Document) :
    topCount d = (bodyIds d).count "toast-container" := by
  simp only [topCount, bodyIds]
  induction d.body with
  | nil => rfl
  | cons e es ih =>
    by_cases he : e.idAttr = "toast-container"
    · simp [List.filter_cons, he, ih]
    · have he' : (e.idAttr == "toast-container") = false := by simpa using he
      simp [List.filter_cons, he, ih, List.count_cons, he']

theorem map_idAttr_modifyAt (f : Element → Element) (hf : ∀ e, (f e).idAttr = e.idAttr) (i : Nat)
    (l : List Element) :
    (modifyAt f i l).map (fun e => e.idAttr) = l.map (fun e => e.idAttr) := by
  induction l generalizing i with
  | nil => cases i <;> rfl
  | cons x xs ih => cases i <;> simp [modifyAt, hf, ih]

theorem bodyIds_appendChild (d : Document) (i : Nat) (c : Child) :
    bodyIds (appendChild d i c) = bodyIds d :=
  map_idAttr_modifyAt (fun e => { e with children := e.children ++ [c] }) (fun _ => rfl) i d.body

theorem bodyIds_removeChild (d : Document) (i : Nat) (nid : Nat) :
    bodyIds (removeChild d i nid) = bodyIds d :=
  map_idAttr_modifyAt (fun e => { e with children := e.children.filter (fun c => c.nid != nid) })
    (fun _ => rfl) i d.body

theorem bodyIds_removeToast (w : World) (nid : Nat) :
    bodyIds (removeToast w nid).doc = bodyIds w.doc := by
  unfold removeToast
  split
  · exact bodyIds_removeChild _ _ _
  · rfl

theorem bodyIds_fire (w : World) (t : Timer) : bodyIds (fire w t).doc = bodyIds w.doc := by
  unfold fire runCallback
  split
  · rfl
  · exact bodyIds_removeToast _ _

theorem bodyIds_elapse (w : World) (dt : Nat) : bodyIds (elapse w dt).doc = bodyIds w.doc := by
  simp only [elapse]
  exact foldl_fire_keeps (fun v => bodyIds v.doc = bodyIds w.doc)
    (fun v t hv => (bodyIds_fire v t).trans hv) _ _ rfl

theorem bodyIds_showToast (w : World) (message : String) (type : Option String) :
    (findId "toast-container" w.doc.body ≠ none ∧
      bodyIds (showToast w message type).doc = bodyIds w.doc) ∨
    (findId "toast-container" w.doc.body = none ∧
      bodyIds (showToast w message type).doc = bodyIds w.doc ++ ["toast-container"]) := by
  cases h : findId "toast-container" w.doc.body with
  | some i =>
    left
    rw [showToast_of_some w message type i h]
    exact ⟨by simp, bodyIds_appendChild _ _ _⟩
  | none =>
    right
    rw [showToast_of_none w message type h]
    exact ⟨rfl, by simp [bodyIds, newToastContainer]⟩

/-- How an operation changes the ids of the body elements: not at all, or by
appending a form (no id), or by appending the toast container when there was
none. -/
theorem step_bodyIds (w : World) (op : Op) :
    bodyIds (step w op).doc = bodyIds w.doc ∨
    bodyIds (step w op).doc = bodyIds w.doc ++ [""] ∨
    ("toast-container" ∉ bodyIds w.doc ∧
      bodyIds (step w op).doc = bodyIds w.doc ++ ["toast-container"]) := by
  cases op with
  | input value =>
    left
    rcases onInput_cases w value with ⟨-, he⟩ | ⟨cl, -, -, he⟩ | ⟨cl, -, -, -, he⟩ |
      ⟨cl, -, -, -, he⟩ <;> simp only [step, he] <;> simp [bodyIds, hideSuggestions]
  | click e =>
    left
    simp only [step, onDocumentClick]
    split
    · rfl
    · split <;> rfl
  | elapse dt => exact Or.inl (bodyIds_elapse w dt)
  | showToast message type =>
    rcases bodyIds_showToast w message type with ⟨-, h⟩ | ⟨hn, h⟩
    · exact Or.inl h
    · exact Or.inr (Or.inr ⟨(findId_eq_none_iff _ _).mp hn, h⟩)
  | getOrCreateToastContainer =>
    simp only [step, getOrCreateToastContainer, getElementById]
    cases h : findId "toast-container" w.doc.body with
    | some i => exact Or.inl rfl
    | none =>
      exact Or.inr (Or.inr ⟨(findId_eq_none_iff _ _).mp h, by simp [bodyIds, appendToBody, newToastContainer]⟩)
  | addToCart productId quantity =>
    rcases addToCart_world w productId quantity with h | ⟨r, h⟩ <;>
      rw [show step w (.addToCart productId quantity) = (addToCart w productId quantity).world
        from rfl, h] <;>
      exact Or.inl rfl
  | settle outcome =>
    simp only [step]
    split
    · exact Or.inl rfl
    · obtain ⟨v, message, type, he, -, -, -, -, -, -, -, hb⟩ :=
        addToCartSettled_eq_showToast { w with inFlight := w.inFlight - 1 } outcome
      have hb' : bodyIds v.doc = bodyIds w.doc := by simp only [bodyIds, hb]
      rw [he]
      rcases bodyIds_showToast v message type with ⟨-, h⟩ | ⟨hn, h⟩
      · exact Or.inl (by rw [h, hb'])
      · refine Or.inr (Or.inr ⟨?_, by rw [h, hb']⟩)
        rw [← hb']
        exact (findId_eq_none_iff _ _).mp hn
  | buyNow productId quantity =>
    rcases buyNow_world w productId quantity with h | ⟨p, q, h⟩ <;>
      rw [show step w (.buyNow productId quantity) = (buyNow w productId quantity).world
        from rfl, h]
    · exact Or.inl rfl
    · exact Or.inr (Or.inl (by simp [bodyIds, appendToBody, buyNowForm]))
  | loadVehicleBrands =>
    left
    simp only [step, loadVehicleBrands]
    split <;> rfl
  | dismiss nid => exact Or.inl (bodyIds_removeToast w nid)

theorem topCount_step_le (w : World) (op : Op) (h : topCount w.doc ≤ 1) :
    topCount (step w op).doc ≤ 1 := by
  rw [topCount_eq] at h ⊢
  rcases step_bodyIds w op with e | e | ⟨hn, e⟩
  · rw [e]; exact h
  · rw [e]; simpa using h
  · rw [e]
    simp [List.count_eq_zero_of_not_mem hn]

/-- Once the container exists, every operation keeps it the only one and
keeps it where it is. -/
theorem container_step (w : World) (op : Op) (i : Nat)
    (h : topCount w.doc = 1 ∧ findId "toast-container" w.doc.body = some i) :
    topCount (step w op).doc = 1 ∧
      findId "toast-container" (step w op).doc.body = some i := by
  obtain ⟨hc, hf⟩ := h
  have hmem : "toast-container" ∈ bodyIds w.doc := by
    by_contra hn
    rw [bodyIds, ← findId_eq_none_iff] at hn
    rw [hn] at hf
    cases hf
  rw [topCount_eq] at hc ⊢
  rcases step_bodyIds w op with e | e | ⟨hn, -⟩
  · refine ⟨by rw [e]; exact hc, ?_⟩
    rw [findId_ids_congr _ _ w.doc.body e]
    exact hf
  · refine ⟨by rw [e]; simpa using hc, ?_⟩
    have e' : (step w op).doc.body.map (fun e => e.idAttr) =
        (w.doc.body ++ [buyNowForm w "" ""]).map (fun e => e.idAttr) := by
      simpa [bodyIds, buyNowForm] using e
    rw [findId_ids_congr _ _ _ e']
    exact findId_append_of_some _ _ _ _ hf
  · exact absurd hmem hn

theorem container_run (ops : List Op) (w : World) (i : Nat)
    (h : topCount w.doc = 1 ∧ findId "toast-container" w.doc.body = some i) :
    topCount (run ops w).doc = 1 ∧
      findId "toast-container" (run ops w).doc.body = some i :=
  run_keeps (fun v => topCount v.doc = 1 ∧ findId "toast-container" v.doc.body = some i)
    (fun v op hv => container_step v op i hv) ops w h

theorem topCount_run_le (page : Document) (ops : List Op) (h : topCount page ≤ 1) :
    topCount (run ops (boot page)).doc ≤ 1 :=
  run_keeps (fun v => topCount v.doc ≤ 1) topCount_step_le ops _
    (by simpa [topCount, boot_body] using h)

/-- After `getOrCreateToastContainer` there is a container, at the position
the call returns. -/
theorem getOrCreateToastContainer_spec (w : World) (h : topCount w.doc ≤ 1) :
    topCount (getOrCreateToastContainer w).2.doc = 1 ∧
    findId "toast-container" (getOrCreateToastContainer w).2.doc.body =
      some (getOrCreateToastContainer w).1 := by
  rw [topCount_eq] at h ⊢
  simp only [getOrCreateToastContainer, getElementById]
  cases hf : findId "toast-container" w.doc.body with
  | some i =>
    refine ⟨?_, hf⟩
    have hmem : "toast-container" ∈ bodyIds w.doc := by
      by_contra hn
      rw [bodyIds, ← findId_eq_none_iff] at hn
      rw [hn] at hf
      cases hf
    have := List.count_pos_iff.mpr hmem
    show List.count "toast-container" (bodyIds w.doc) = 1
    omega
  | none =>
    have hn := (findId_eq_none_iff _ _).mp hf
    refine ⟨?_, findId_append_of_none _ _ _ hf rfl⟩
    simp [bodyIds, appendToBody, newToastContainer]
    exact List.count_eq_zero_of_not_mem hn

/-! ## Node identities -/

theorem attached_iff (d : Document) (n : Nat) : attached d n = true ↔ n ∈ nids d := by
  simp only [attached, nids, List.any_eq_true, List.mem_map, beq_iff_eq]

theorem attached_eq_false_iff (d : Document) (n : Nat) : attached d n = false ↔ n ∉ nids d := by
  rw [← attached_iff]
  cases attached d n <;> simp

theorem flatMap_modifyAt_append (c : Child) (i : Nat) (l : List Element) (h : i < l.length) :
    ((modifyAt (fun e => { e with children := e.children ++ [c] }) i l).flatMap
      (fun e => e.children)).Perm (l.flatMap (fun e => e.children) ++ [c]) := by
  induction l generalizing i with
  | nil => simp at h
  | cons x xs ih =>
    cases i with
    | zero =>
      simp only [modifyAt, List.flatMap_cons, List.append_assoc]
      exact List.Perm.append_left _ List.perm_append_comm
    | succ n =>
      simp only [modifyAt, List.flatMap_cons, List.append_assoc]
      exact List.Perm.append_left _ (ih n (by simpa using h))

theorem nids_appendChild (d : Document) (i : Nat) (c : Child) (h : i < d.body.length) :
    (nids (appendChild d i c)).Perm (nids d ++ [c.nid]) := by
  have := (flatMap_modifyAt_append c i d.body h).map (fun c => c.nid)
  simpa [nids, allChildren, appendChild] using this

theorem findParent_eq_none_iff (n : Nat) (l : List Element) :
    findParent n l = none ↔ n ∉ (l.flatMap (fun e => e.children)).map (fun c => c.nid) := by
  induction l with
  | nil => simp [findParent]
  | cons x xs ih =>
    by_cases hx : x.children.any (fun c => c.nid == n) = true
    · constructor
      · intro h
        simp [findParent, hx] at h
      · intro h
        exfalso
        apply h
        simp only [List.any_eq_true, beq_iff_eq] at hx
        obtain ⟨c, hc, rfl⟩ := hx
        rw [List.flatMap_cons, List.map_append, List.mem_append]
        exact Or.inl (List.mem_map.mpr ⟨c, hc, rfl⟩)
    · have hnx : n ∉ x.children.map (fun c => c.nid) := by
        intro hm
        obtain ⟨c, hc, rfl⟩ := List.mem_map.mp hm
        exact hx (List.any_eq_true.mpr ⟨c, hc, by simp⟩)
      have hfp : findParent n (x :: xs) = (findParent n xs).map (· + 1) := by
        simp [findParent, hx]
      rw [hfp, Option.map_eq_none', ih, List.flatMap_cons, List.map_append, List.mem_append]
      constructor
      · intro h
        rintro (h1 | h2)
        · exact hnx h1
        · exact h h2
      · intro h h2
        exact h (Or.inr h2)

/-- With distinct identities, removing a node from its parent removes it from
the document: the result is the body with the node filtered out of every
element. -/
theorem removeFromParent_eq_map (n : Nat) (l : List Element)
    (hnd : ((l.flatMap (fun e => e.children)).map (fun c => c.nid)).Nodup) :
    (match findParent n l with
      | some p => modifyAt (fun e => { e with children := e.children.filter (fun c => c.nid != n) }) p l
      | none => l) =
      l.map (fun e => { e with children := e.children.filter (fun c => c.nid != n) }) := by
  have hid : ∀ l' : List Element, n ∉ (l'.flatMap (fun e => e.children)).map (fun c => c.nid) →
      l'.map (fun e => { e with children := e.children.filter (fun c => c.nid != n) }) = l' := by
    intro l' hn
    induction l' with
    | nil => rfl
    | cons y ys ihy =>
      simp only [List.flatMap_cons, List.map_append, List.mem_append, not_or] at hn
      have hy : y.children.filter (fun c => c.nid != n) = y.children := by
        rw [List.filter_eq_self]
        intro c hc
        have : c.nid ≠ n := fun e => hn.1 (List.mem_map.mpr ⟨c, hc, e⟩)
        simpa using this
      simp [ihy hn.2, hy]
  induction l with
  | nil => simp [findParent]
  | cons x xs ih =>
    simp only [List.flatMap_cons, List.map_append] at hnd
    have hnd' := List.nodup_append.mp hnd
    by_cases hx : x.children.any (fun c => c.nid == n) = true
    · have hn : n ∉ (xs.flatMap (fun e => e.children)).map (fun c => c.nid) := by
        intro hmem
        simp only [List.any_eq_true, beq_iff_eq] at hx
        obtain ⟨c, hc, rfl⟩ := hx
        exact hnd'.2.2 (List.mem_map.mpr ⟨c, hc, rfl⟩) hmem
      simp only [findParent, hx, if_true, modifyAt, List.map_cons, hid xs hn]
    · have hy : x.children.filter (fun c => c.nid != n) = x.children := by
        rw [List.filter_eq_self]
        intro c hc
        simp only [List.any_eq_true, beq_iff_eq, not_exists, not_and] at hx
        have := hx c hc
        simpa using this
      simp only [findParent, hx, List.map_cons, hy]
      rw [← ih hnd'.2.1]
      cases findParent n xs with
      | none => simp
      | some p => simp [modifyAt]

theorem removeToast_body (w : World) (n : Nat) (hnd : (nids w.doc).Nodup) :
    (removeToast w n).doc.body =
      w.doc.body.map (fun e => { e with children := e.children.filter (fun c => c.nid != n) }) := by
  rw [← removeFromParent_eq_map n w.doc.body hnd]
  simp only [removeToast, parentNode]
  cases findParent n w.doc.body <;> rfl

theorem removeToast_of_not_attached (w : World) (n : Nat) (h : attached w.doc n = false) :
    removeToast w n = w := by
  rw [attached_eq_false_iff] at h
  have := (findParent_eq_none_iff n w.doc.body).mpr h
  simp [removeToast, parentNode, this]

theorem nids_map_filter (n : Nat) (l : List Element) :
    ((l.map (fun e => { e with children := e.children.filter (fun c => c.nid != n) })).flatMap
      (fun e => e.children)).map (fun c => c.nid) =
      ((l.flatMap (fun e => e.children)).map (fun c => c.nid)).filter (fun m => m != n) := by
  induction l with
  | nil => rfl
  | cons x xs ih =>
    simp only [List.map_cons, List.flatMap_cons, List.map_append, List.filter_append, ih]
    congr 1
    rw [List.filter_map]
    rfl

/-- The nodes a removal leaves: all but the removed one, in their order. -/
theorem nids_removeToast (w : World) (n : Nat) (hnd : (nids w.doc).Nodup) :
    nids (removeToast w n).doc = (nids w.doc).filter (fun m => m != n) := by
  simp only [nids, allChildren, removeToast_body w n hnd]
  exact nids_map_filter n w.doc.body

theorem childrenAt_removeToast (w : World) (n : Nat) (hnd : (nids w.doc).Nodup) (j : Nat) :
    childrenAt (removeToast w n).doc j =
      (childrenAt w.doc j).filter (fun c => c.nid != n) := by
  simp only [childrenAt, removeToast_body w n hnd, List.getElem?_map]
  cases w.doc.body[j]? <;> simp

theorem nidsOk_removeToast (w : World) (n : Nat) (h : NidsOk w) : NidsOk (removeToast w n) := by
  obtain ⟨h1, h2⟩ := h
  refine ⟨?_, ?_⟩
  · rw [nids_removeToast w n h2, removeToast_nextNid]
    intro m hm
    exact h1 m (List.mem_filter.mp hm).1
  · rw [nids_removeToast w n h2]
    exact h2.filter _

theorem nidsOk_fire (w : World) (t : Timer) (h : NidsOk w) : NidsOk (fire w t) := by
  unfold fire runCallback
  split
  · exact h
  · exact nidsOk_removeToast _ _ h

theorem nidsOk_elapse (w : World) (dt : Nat) (h : NidsOk w) : NidsOk (elapse w dt) := by
  have := foldl_fire_keeps NidsOk nidsOk_fire (dueTimers w (w.now + dt))
    { w with timers := w.timers.filter (fun tm => !decide (tm.due ≤ w.now + dt)) } h
  exact this

theorem nidsOk_showToast (w : World) (message : String) (type : Option String) (h : NidsOk w) :
    NidsOk (showToast w message type) := by
  obtain ⟨h1, h2⟩ := h
  have key : (nids (showToast w message type).doc).Perm (nids w.doc ++ [w.nextNid]) := by
    cases hf : findId "toast-container" w.doc.body with
    | some i =>
      rw [showToast_of_some w message type i hf]
      exact nids_appendChild _ _ _ (findId_lt hf)
    | none =>
      rw [showToast_of_none w message type hf]
      simp [nids, allChildren, createToastElement]
  refine ⟨?_, ?_⟩
  · intro n hn
    have := key.mem_iff.mp hn
    simp only [List.mem_append, List.mem_singleton] at this
    rw [showToast_nextNid]
    rcases this with hm | rfl
    · have := h1 n hm; omega
    · omega
  · rw [key.nodup_iff]
    rw [List.nodup_append]
    refine ⟨h2, by simp, ?_⟩
    intro a ha hb
    simp only [List.mem_singleton] at hb
    subst hb
    exact absurd (h1 _ ha) (by omega)

theorem nidsOk_of_body (w v : World) (hb : v.doc.body = w.doc.body) (hn : v.nextNid = w.nextNid)
    (h : NidsOk w) : NidsOk v := by
  unfold NidsOk nids allChildren at *
  rw [hb, hn]
  exact h

theorem nidsOk_step (w : World) (op : Op) (h : NidsOk w) : NidsOk (step w op) := by
  cases op with
  | input value =>
    refine nidsOk_of_body w _ ?_ ?_ h
    · rcases onInput_cases w value with ⟨-, he⟩ | ⟨cl, -, -, he⟩ | ⟨cl, -, -, -, he⟩ |
        ⟨cl, -, -, -, he⟩ <;> simp only [step, he] <;> simp [hideSuggestions]
    · rcases onInput_cases w value with ⟨-, he⟩ | ⟨cl, -, -, he⟩ | ⟨cl, -, -, -, he⟩ |
        ⟨cl, -, -, -, he⟩ <;> simp only [step, he] <;> simp
  | click e =>
    refine nidsOk_of_body w _ ?_ ?_ h
    · simp only [step, onDocumentClick]
      split
      · rfl
      · split <;> rfl
    · simp only [step, onDocumentClick]
      split
      · rfl
      · split <;> rfl
  | elapse dt => exact nidsOk_elapse w dt h
  | showToast message type => exact nidsOk_showToast w message type h
  | getOrCreateToastContainer =>
    simp only [step, getOrCreateToastContainer]
    split
    · exact h
    · obtain ⟨h1, h2⟩ := h
      have : nids (appendToBody w.doc newToastContainer) = nids w.doc := by
        simp [nids, allChildren, appendToBody, newToastContainer]
      exact ⟨by rw [this]; exact h1, by rw [this]; exact h2⟩
  | addToCart productId quantity =>
    rcases addToCart_world w productId quantity with e | ⟨r, e⟩ <;>
      rw [show step w (.addToCart productId quantity) = (addToCart w productId quantity).world
        from rfl, e]
    · exact h
    · exact nidsOk_of_body w _ rfl rfl h
  | settle outcome =>
    simp only [step]
    split
    · exact h
    · obtain ⟨v, message, type, he, -, -, -, h4, -, -, -, hb⟩ :=
        addToCartSettled_eq_showToast { w with inFlight := w.inFlight - 1 } outcome
      rw [he]
      exact nidsOk_showToast v message type (nidsOk_of_body w v hb h4 h)
  | buyNow productId quantity =>
    rcases buyNow_world w productId quantity with e | ⟨p, q, e⟩ <;>
      rw [show step w (.buyNow productId quantity) = (buyNow w productId quantity).world
        from rfl, e]
    · exact h
    · obtain ⟨h1, h2⟩ := h
      have key : nids (appendToBody w.doc (buyNowForm w p q)) =
          nids w.doc ++ [w.nextNid, w.nextNid + 1, w.nextNid + 2] := by
        simp [nids, allChildren, appendToBody, buyNowForm, hiddenInput]
      refine ⟨?_, ?_⟩
      · intro n hn
        simp only [key, List.mem_append, List.mem_cons, List.mem_singleton,
          List.not_mem_nil, or_false] at hn
        show n < w.nextNid + 3
        rcases hn with hm | rfl | rfl | rfl
        · have := h1 n hm; omega
        · omega
        · omega
        · omega
      · simp only [key]
        rw [List.nodup_append]
        refine ⟨h2, by simp, ?_⟩
        intro a ha hb
        have := h1 a ha
        simp only [List.mem_cons, List.mem_singleton, List.not_mem_nil, or_false] at hb
        omega
  | loadVehicleBrands =>
    refine nidsOk_of_body w _ ?_ ?_ h
    · exact (loadVehicleBrands_frame w).2.2.2.2.2.2.2
    · exact (loadVehicleBrands_frame w).2.2.2.2.2.1
  | dismiss nid => exact nidsOk_removeToast w nid h

theorem foldl_max_nid (l : List Child) (m : Nat) :
    m ≤ l.foldl (fun m c => max m (c.nid + 1)) m ∧
      ∀ c ∈ l, c.nid < l.foldl (fun m c => max m (c.nid + 1)) m := by
  induction l generalizing m with
  | nil => simp
  | cons x xs ih =>
    obtain ⟨h1, h2⟩ := ih (max m (x.nid + 1))
    refine ⟨le_trans (le_max_left _ _) h1, ?_⟩
    intro c hc
    simp only [List.mem_cons] at hc
    rcases hc with rfl | hc
    · exact lt_of_lt_of_le (by simp : c.nid < c.nid + 1) (le_trans (le_max_right _ _) h1)
    · exact h2 c hc

theorem nidsOk_boot (page : Document) (h : WellFormed page) : NidsOk (boot page) := by
  have hb := boot_body page
  have hn := (boot_timers page).2.2.2.1
  unfold NidsOk nids allChildren
  rw [hb, hn]
  refine ⟨?_, h⟩
  intro n hm
  obtain ⟨c, hc, rfl⟩ := List.mem_map.mp hm
  exact (foldl_max_nid (allChildren page) 0).2 c hc

theorem nidsOk_run (page : Document) (ops : List Op) (h : WellFormed page) :
    NidsOk (run ops (boot page)) :=
  run_keeps NidsOk nidsOk_step ops _ (nidsOk_boot page h)

/-! ## The toast timer is never cancelled -/

theorem searchIdOk_boot (page : Document) : SearchIdOk (boot page) := by
  refine ⟨?_, ?_, ?_⟩
  · intro cl sid hcl hsid
    rw [boot_search] at hcl
    cases hi : page.searchInput <;> simp [hi] at hcl
    rw [← hcl] at hsid
    cases hsid
  · rw [(boot_timers page).1]; simp
  · rw [(boot_timers page).1]; simp

theorem searchIdOk_step (w : World) (op : Op) (h : SearchIdOk w) : SearchIdOk (step w op) := by
  obtain ⟨h1, h2, h3⟩ := h
  rcases step_search_timers w op with ⟨value, rfl⟩ | ⟨hs, -, ht⟩
  · rcases onInput_cases w value with ⟨-, he⟩ | ⟨cl, hcl, -, he⟩ | ⟨cl, hcl, -, -, he⟩ |
      ⟨cl, hcl, -, -, he⟩
    · simp only [step, he]; exact ⟨h1, h2, h3⟩
    · simp only [step, he]
      refine ⟨?_, ?_, ?_⟩
      · intro cl' sid hcl' hsid
        simp only [Option.some.injEq] at hcl'
        rw [← hcl'] at hsid
        simp only [Option.some.injEq] at hsid
        show sid < w.nextTimer + 1
        omega
      · intro t ht
        simp only [List.mem_append, List.mem_singleton] at ht
        show t.id < w.nextTimer + 1
        rcases ht with ht | rfl
        · have := h2 t (clearTimeout_timers_subset w _ t ht)
          omega
        · simp
      · intro t ht hf cl' hcl' hsid
        simp only [Option.some.injEq] at hcl'
        rw [← hcl'] at hsid
        simp only [Option.some.injEq] at hsid
        simp only [List.mem_append, List.mem_singleton] at ht
        rcases ht with ht | rfl
        · have := h2 t (clearTimeout_timers_subset w _ t ht)
          omega
        · simp [fetchOf] at hf
    · simp only [step, he]
      refine ⟨?_, ?_, ?_⟩
      · intro cl' sid hcl' hsid
        simpa using h1 cl' sid (by simpa using hcl') hsid
      · intro t ht
        simpa using h2 t (clearTimeout_timers_subset w _ t ht)
      · intro t ht hf cl' hcl'
        exact h3 t (clearTimeout_timers_subset w _ t ht) hf cl' (by simpa using hcl')
    · simp only [step, he]
      refine ⟨?_, ?_, ?_⟩
      · intro cl' sid hcl' hsid
        simpa using h1 cl' sid (by simpa using hcl') hsid
      · intro t ht
        simpa using h2 t (clearTimeout_timers_subset w _ t ht)
      · intro t ht hf cl' hcl'
        exact h3 t (clearTimeout_timers_subset w _ t ht) hf cl' (by simpa using hcl')
  · rcases ht with ⟨e1, e2, -⟩ | ⟨dt, -, e1, e2⟩ | ⟨nid, due, e1, e2, -⟩
    · refine ⟨?_, ?_, ?_⟩
      · rw [hs, e2]; exact h1
      · rw [e1, e2]; exact h2
      · rw [e1, hs]; exact h3
    · refine ⟨?_, ?_, ?_⟩
      · rw [hs, e2]; exact h1
      · rw [e1, e2]
        intro t ht
        exact h2 t (List.mem_filter.mp ht).1
      · rw [e1, hs]
        intro t ht
        exact h3 t (List.mem_filter.mp ht).1
    · refine ⟨?_, ?_, ?_⟩
      · rw [hs, e2]
        intro cl sid hcl hsid
        have := h1 cl sid hcl hsid
        omega
      · rw [e1, e2]
        intro t ht
        simp only [List.mem_append, List.mem_singleton] at ht
        rcases ht with ht | rfl
        · have := h2 t ht
          omega
        · simp
      · rw [e1, hs]
        intro t ht hf cl hcl hsid
        simp only [List.mem_append, List.mem_singleton] at ht
        rcases ht with ht | rfl
        · exact h3 t ht hf cl hcl hsid
        · have := h1 cl _ hcl hsid
          simp at this

theorem searchIdOk_run (page : Document) (ops : List Op) : SearchIdOk (run ops (boot page)) :=
  run_keeps SearchIdOk searchIdOk_step ops _ (searchIdOk_boot page)

theorem nids_fire_subset (v : World) (t : Timer) (h : NidsOk v) :
    ∀ m ∈ nids (fire v t).doc, m ∈ nids v.doc := by
  intro m hm
  cases hc : t.callback with
  | fetchSearchSuggestions q =>
    simpa [fire, runCallback, hc] using hm
  | removeToast n =>
    have e : nids (fire v t).doc = (nids v.doc).filter (fun m => m != n) := by
      simp only [fire, runCallback, hc]
      exact nids_removeToast { v with now := t.due } n h.2
    rw [e] at hm
    exact (List.mem_filter.mp hm).1

theorem nids_fire_removeToast (v : World) (t : Timer) (n : Nat) (h : NidsOk v)
    (hc : t.callback = .removeToast n) : n ∉ nids (fire v t).doc := by
  have e : nids (fire v t).doc = (nids v.doc).filter (fun m => m != n) := by
    simp only [fire, runCallback, hc]
    exact nids_removeToast { v with now := t.due } n h.2
  rw [e]
  simp

/-- Node identities are never reused: an operation adds only nodes whose
identity is new, and the counter never goes back. -/
theorem step_nids_mem (w : World) (op : Op) (h : NidsOk w) :
    w.nextNid ≤ (step w op).nextNid ∧
      ∀ m ∈ nids (step w op).doc, m ∈ nids w.doc ∨ w.nextNid ≤ m := by
  have same : ∀ v : World, v.doc.body = w.doc.body → v.nextNid = w.nextNid →
      w.nextNid ≤ v.nextNid ∧ ∀ m ∈ nids v.doc, m ∈ nids w.doc ∨ w.nextNid ≤ m := by
    intro v hb hn
    refine ⟨by omega, fun m hm => Or.inl ?_⟩
    simpa [nids, allChildren, hb] using hm
  have toast : ∀ (v : World) (message : String) (type : Option String),
      v.doc.body = w.doc.body → v.nextNid = w.nextNid →
      w.nextNid ≤ (showToast v message type).nextNid ∧
        ∀ m ∈ nids (showToast v message type).doc, m ∈ nids w.doc ∨ w.nextNid ≤ m := by
    intro v message type hb hn
    have key : (nids (showToast v message type).doc).Perm (nids v.doc ++ [v.nextNid]) := by
      cases hf : findId "toast-container" v.doc.body with
      | some i =>
        rw [showToast_of_some v message type i hf]
        exact nids_appendChild _ _ _ (findId_lt hf)
      | none =>
        rw [showToast_of_none v message type hf]
        simp [nids, allChildren, createToastElement]
    refine ⟨by rw [showToast_nextNid]; omega, fun m hm => ?_⟩
    have := key.mem_iff.mp hm
    simp only [List.mem_append, List.mem_singleton] at this
    rcases this with hm' | rfl
    · left; simpa [nids, allChildren, hb] using hm'
    · right; omega
  cases op with
  | input value =>
    apply same
    · rcases onInput_cases w value with ⟨-, he⟩ | ⟨cl, -, -, he⟩ | ⟨cl, -, -, -, he⟩ |
        ⟨cl, -, -, -, he⟩ <;> simp only [step, he] <;> simp [hideSuggestions]
    · rcases onInput_cases w value with ⟨-, he⟩ | ⟨cl, -, -, he⟩ | ⟨cl, -, -, -, he⟩ |
        ⟨cl, -, -, -, he⟩ <;> simp only [step, he] <;> simp
  | click e =>
    apply same
    · simp only [step, onDocumentClick]
      split
      · rfl
      · split <;> rfl
    · simp only [step, onDocumentClick]
      split
      · rfl
      · split <;> rfl
  | elapse dt =>
    have := foldl_fire_keeps
      (fun v => NidsOk v ∧ v.nextNid = w.nextNid ∧ ∀ m ∈ nids v.doc, m ∈ nids w.doc)
      (fun v t hv => by
        obtain ⟨hv1, hv2, hv3⟩ := hv
        refine ⟨nidsOk_fire v t hv1, by simp [hv2], ?_⟩
        intro m hm
        exact hv3 m (nids_fire_subset v t hv1 m hm))
      (dueTimers w (w.now + dt))
      { w with timers := w.timers.filter (fun tm => !decide (tm.due ≤ w.now + dt)) }
      ⟨h, rfl, fun m hm => hm⟩
    obtain ⟨-, h2, h3⟩ := this
    refine ⟨by simp [step], fun m hm => Or.inl (h3 m ?_)⟩
    simpa [step, elapse] using hm
  | showToast message type => exact toast w message type rfl rfl
  | getOrCreateToastContainer =>
    simp only [step, getOrCreateToastContainer]
    split
    · exact same w rfl rfl
    · exact same _ (by simp [appendToBody, nids]) rfl |>.imp id (fun _ m hm => Or.inl (by
        simpa [nids, allChildren, appendToBody, newToastContainer] using hm))
  | addToCart productId quantity =>
    rcases addToCart_world w productId quantity with e | ⟨r, e⟩ <;>
      rw [show step w (.addToCart productId quantity) = (addToCart w productId quantity).world
        from rfl, e] <;>
      exact same _ rfl rfl
  | settle outcome =>
    simp only [step]
    split
    · exact same w rfl rfl
    · obtain ⟨v, message, type, he, -, -, -, h4, -, -, -, hb⟩ :=
        addToCartSettled_eq_showToast { w with inFlight := w.inFlight - 1 } outcome
      rw [he]
      exact toast v message type hb h4
  | buyNow productId quantity =>
    rcases buyNow_world w productId quantity with e | ⟨p, q, e⟩ <;>
      rw [show step w (.buyNow productId quantity) = (buyNow w productId quantity).world
        from rfl, e]
    · exact same _ rfl rfl
    · have key : nids (appendToBody w.doc (buyNowForm w p q)) =
          nids w.doc ++ [w.nextNid, w.nextNid + 1, w.nextNid + 2] := by
        simp [nids, allChildren, appendToBody, buyNowForm, hiddenInput]
      refine ⟨by show w.nextNid ≤ w.nextNid + 3; omega, fun m hm => ?_⟩
      simp only [key, List.mem_append, List.mem_cons, List.mem_singleton,
        List.not_mem_nil, or_false] at hm
      rcases hm with hm | rfl | rfl | rfl
      · exact Or.inl hm
      · right; omega
      · right; omega
      · right; omega
  | loadVehicleBrands =>
    exact same _ (loadVehicleBrands_frame w).2.2.2.2.2.2.2 (loadVehicleBrands_frame w).2.2.2.2.2.1
  | dismiss nid =>
    refine ⟨by simp [step], fun m hm => Or.inl ?_⟩
    simp only [step] at hm
    rw [nids_removeToast _ _ h.2] at hm
    exact (List.mem_filter.mp hm).1

/-- Firing a list of timers that contains the removal of node `n0`, or starts
with `n0` detached, ends with `n0` detached. -/
theorem foldl_fire_detaches (tm : Timer) (n0 : Nat) (htm : tm.callback = .removeToast n0)
    (l : List Timer) :
    ∀ v : World, NidsOk v → (tm ∈ l ∨ n0 ∉ nids v.doc) → n0 ∉ nids (l.foldl fire v).doc := by
  induction l with
  | nil =>
    intro v _ h
    rcases h with h | h
    · simp at h
    · exact h
  | cons t ts ih =>
    intro v hv h
    have hsub := nids_fire_subset v t hv
    apply ih (fire v t) (nidsOk_fire v t hv)
    rcases h with h | h
    · simp only [List.mem_cons] at h
      rcases h with rfl | h
      · exact Or.inr (nids_fire_removeToast v _ n0 hv htm)
      · exact Or.inl h
    · exact Or.inr (fun hm => h (hsub _ hm))

theorem expiring_step (tm : Timer) (n0 : Nat) (htm : tm.callback = .removeToast n0) (w : World)
    (op : Op) (h : Expiring tm n0 w) : Expiring tm n0 (step w op) := by
  obtain ⟨hs, hn, hlt, hd⟩ := h
  obtain ⟨hmono, hmem⟩ := step_nids_mem w op hn
  have hf : fetchOf tm = none := by simp [fetchOf, htm]
  refine ⟨searchIdOk_step w op hs, nidsOk_step w op hn, by omega, ?_⟩
  rcases hd with ⟨hin, hdue⟩ | hdet
  · rcases step_search_timers w op with ⟨value, rfl⟩ | ⟨-, -, ht⟩
    · left
      have hkeep : ∀ cl, w.search = some cl → tm ∈ (clearTimeout w cl.searchTimeout).timers := by
        intro cl hcl
        cases hc : cl.searchTimeout with
        | none => exact hin
        | some sid =>
          simp only [clearTimeout, List.mem_filter]
          refine ⟨hin, ?_⟩
          have := hs.2.2 tm hin hf cl hcl
          rw [hc] at this
          simp only [ne_eq, Option.some.injEq] at this
          simpa using fun e => this e.symm
      rcases onInput_cases w value with ⟨-, he⟩ | ⟨cl, hcl, -, he⟩ | ⟨cl, hcl, -, -, he⟩ |
        ⟨cl, hcl, -, -, he⟩
      · simp only [step, he]; exact ⟨hin, hdue⟩
      · simp only [step, he]
        exact ⟨List.mem_append_left _ (hkeep cl hcl), by simpa using hdue⟩
      · simp only [step, he]
        exact ⟨hkeep cl hcl, by simpa using hdue⟩
      · simp only [step, he]
        exact ⟨hkeep cl hcl, by simpa using hdue⟩
    · rcases ht with ⟨e1, -, e3⟩ | ⟨dt, rfl, e1, -⟩ | ⟨nid, due, e1, -, e3⟩
      · left; rw [e1, e3]; exact ⟨hin, hdue⟩
      · by_cases hfire : tm.due ≤ w.now + dt
        · right
          rw [attached_eq_false_iff]
          have hmemd : tm ∈ dueTimers w (w.now + dt) := by
            have hp : (dueTimers w (w.now + dt)).Perm
                (w.timers.filter (fun tm => decide (tm.due ≤ w.now + dt))) :=
              List.perm_insertionSort _ _
            rw [hp.mem_iff, List.mem_filter]
            exact ⟨hin, by simpa using hfire⟩
          have := foldl_fire_detaches tm n0 htm (dueTimers w (w.now + dt))
            { w with timers := w.timers.filter (fun tm => !decide (tm.due ≤ w.now + dt)) }
            hn (Or.inl hmemd)
          simpa [step, elapse] using this
        · left
          refine ⟨?_, ?_⟩
          · rw [e1, List.mem_filter]
            exact ⟨hin, by simpa using hfire⟩
          · simp only [step, elapse_now]
            omega
      · left; rw [e1, e3]; exact ⟨List.mem_append_left _ hin, hdue⟩
  · right
    rw [attached_eq_false_iff] at hdet ⊢
    intro hm
    rcases hmem n0 hm with h1 | h2
    · exact hdet h1
    · omega

theorem expiring_run (tm : Timer) (n0 : Nat) (htm : tm.callback = .removeToast n0)
    (ops : List Op) (w : World) (h : Expiring tm n0 w) : Expiring tm n0 (run ops w) :=
  run_keeps (Expiring tm n0) (expiring_step tm n0 htm) ops w h

/-! ## The fragment parser on plain text -/

theorem tokenize_text (l : List Char) (hl : ∀ c ∈ l, isTextChar c = true) :
    ∀ (acc : List Char) (out : List Token) (rest : List Char),
      tokenize (.data acc) out (l ++ rest) = tokenize (.data (l.reverse ++ acc)) out rest := by
  induction l with
  | nil => intro acc out rest; rfl
  | cons c cs ih =>
    intro acc out rest
    have hc : isTextChar c = true := hl c (List.mem_cons_self _ _)
    have hlt : (c == '<') = false := by
      simp only [isTextChar, Bool.and_eq_true, bne_iff_ne, ne_eq] at hc
      simpa using hc.1.1.1
    rw [List.cons_append, tokenize, hlt]
    simp only [Bool.false_eq_true, if_false, hc, if_true]
    rw [ih (fun c hc => hl c (List.mem_cons_of_mem _ hc))]
    simp

/-- The close button and what follows it in the template of a toast. -/
theorem tokenize_button (a : Char) (acc : List Char) :
    tokenize (.data (a :: acc)) []
        "<button type=\"button\" class=\"btn-close\" data-bs-dismiss=\"alert\"></button>\n    ".data =
      some
        [ .text (String.mk (a :: acc).reverse),
          .startTag "button" [("type", "button"), ("class", "btn-close"), ("data-bs-dismiss", "alert")],
          .endTag "button",
          .text "\n    " ] := by
  rfl

theorem toastMarkup_data (message : String) :
    (toastMarkup message).data =
      "\n        ".data ++ (message.data ++ ("\n        ".data ++
        "<button type=\"button\" class=\"btn-close\" data-bs-dismiss=\"alert\"></button>\n    ".data)) := by
  simp only [toastMarkup, String.data_append]
  rfl

/-- The parser reads the toast of a plain-text message as the message between
the blanks of the template, followed by the close button. -/
theorem parseFragment_plain (message : String) (h : isPlainText message = true) :
    parseFragment (toastMarkup message) = some (plainToastNodes message) := by
  have hm : ∀ c ∈ message.data, isTextChar c = true := by
    simpa [isPlainText, List.all_eq_true] using h
  have hws : ∀ c ∈ "\n        ".data, isTextChar c = true := by decide
  have ht : tokenize (.data []) [] (toastMarkup message).data = some (plainToastNodes message) := by
    rw [toastMarkup_data, tokenize_text _ hws, tokenize_text _ hm, tokenize_text _ hws]
    have e : "\n        ".data.reverse ++ (message.data.reverse ++ ("\n        ".data.reverse ++ [])) =
        ' ' :: ("       \n".data ++ (message.data.reverse ++ "        \n".data)) := by
      rfl
    rw [e, tokenize_button]
    have e2 : String.mk (' ' :: ("       \n".data ++ (message.data.reverse ++ "        \n".data))).reverse =
        "\n        " ++ message ++ "\n        " := by
      apply String.ext
      simp only [String.data_append, List.reverse_cons, List.reverse_append, List.reverse_reverse,
        List.append_assoc]
      rfl
    rw [e2]
    rfl
  simp only [parseFragment, ht]
  rfl

theorem harmless_of_plain (message : String) (h : isPlainText message = true) :
    harmless message = true := by
  simp only [harmless, parseFragment_plain message h]
  rfl

theorem startsWith_append (x b : List Char) : startsWith x (x ++ b) = true := by
  induction x with
  | nil => cases b <;> rfl
  | cons c cs ih => simp [startsWith, ih]

theorem hasInfix_append (x a b : List Char) : hasInfix x (a ++ (x ++ b)) = true := by
  induction a with
  | nil =>
    cases hx : x ++ b with
    | nil =>
      have : x = [] := (List.append_eq_nil.mp hx).1
      simp [hasInfix, this]
    | cons c cs =>
      rw [List.nil_append, ← hx]
      cases x with
      | nil =>
        simp only [List.nil_append] at hx ⊢
        rw [hx]
        simp [hasInfix, startsWith]
      | cons y ys =>
        simp only [List.cons_append, hasInfix, Bool.or_eq_true]
        left
        have := startsWith_append (y :: ys) b
        simpa using this
  | cons c cs ih => simp [hasInfix, ih]

/-- The text of the toast of a plain-text message contains the message. -/
theorem hasInfix_plainToast (message : String) :
    hasInfix message.data (textOf (plainToastNodes message)).data = true := by
  have : (textOf (plainToastNodes message)).data =
      "\n        ".data ++ (message.data ++ ("\n        ".data ++ "\n    ".data)) := by
    simp [textOf, plainToastNodes, String.join, String.data_append]
  rw [this]
  exact hasInfix_append _ _ _

/-! ## Where the first toast container is -/

theorem lookupOk_modifyAt_found (f : Element → Element) (hf : ∀ e, (f e).idAttr = e.idAttr)
    (l : List Element) (i : Nat) (hi : findId "toast-container" l = some i)
    (h : lookupOk l = true) : lookupOk (modifyAt f i l) = true := by
  induction l generalizing i with
  | nil => simp [findId] at hi
  | cons e es ih =>
    by_cases he : e.idAttr = "toast-container"
    · simp only [findId, he, if_true, Option.some.injEq] at hi
      subst hi
      simp [modifyAt, lookupOk, hf, he]
    · simp only [findId, he, if_false] at hi
      cases hk : findId "toast-container" es with
      | none => simp [hk] at hi
      | some k =>
        simp only [hk, Option.map_some', Option.some.injEq] at hi
        subst hi
        simp only [lookupOk, he, if_false, Bool.and_eq_true] at h
        simp only [modifyAt, lookupOk, he, if_false, Bool.and_eq_true]
        exact ⟨h.1, ih k hk h.2⟩

theorem lookupOk_modifyAt_filter (p : Child → Bool) (l : List Element) (i : Nat)
    (h : lookupOk l = true) :
    lookupOk (modifyAt (fun e => { e with children := e.children.filter p }) i l) = true := by
  induction l generalizing i with
  | nil => cases i <;> rfl
  | cons e es ih =>
    by_cases he : e.idAttr = "toast-container"
    · cases i <;> simp [modifyAt, lookupOk, he]
    · simp only [lookupOk, he, if_false, Bool.and_eq_true] at h
      cases i with
      | zero =>
        simp only [modifyAt, lookupOk, he, if_false, Bool.and_eq_true]
        refine ⟨?_, h.2⟩
        rw [List.all_eq_true] at h ⊢
        intro c hc
        exact h.1 c (List.mem_filter.mp hc).1
      | succ k =>
        simp only [modifyAt, lookupOk, he, if_false, Bool.and_eq_true]
        exact ⟨h.1, ih k h.2⟩

theorem lookupOk_append (l : List Element) (e : Element) (h : lookupOk l = true)
    (he : e.idAttr = "toast-container" ∨ e.children.all noContainerInside = true) :
    lookupOk (l ++ [e]) = true := by
  induction l with
  | nil =>
    rcases he with he | he
    · simp [lookupOk, he]
    · by_cases hid : e.idAttr = "toast-container"
      · simp [lookupOk, hid]
      · simp only [List.nil_append, lookupOk, hid, if_false, he, Bool.and_self]
  | cons x xs ih =>
    by_cases hx : x.idAttr = "toast-container"
    · simp [lookupOk, hx]
    · simp only [lookupOk, hx, if_false, Bool.and_eq_true] at h
      simp only [List.cons_append, lookupOk, hx, if_false, Bool.and_eq_true]
      exact ⟨h.1, ih h.2⟩

theorem lookupOk_removeToast (w : World) (nid : Nat) (h : lookupOk w.doc.body = true) :
    lookupOk (removeToast w nid).doc.body = true := by
  unfold removeToast
  split
  · exact lookupOk_modifyAt_filter _ _ _ h
  · exact h

theorem lookupOk_showToast (w : World) (message : String) (type : Option String)
    (h : lookupOk w.doc.body = true) : lookupOk (showToast w message type).doc.body = true := by
  cases hf : findId "toast-container" w.doc.body with
  | some i =>
    rw [showToast_of_some w message type i hf]
    exact lookupOk_modifyAt_found
      (fun e => { e with children := e.children ++ [(createToastElement w message (type.getD "info")).1] })
      (fun _ => rfl) _ _ hf h
  | none =>
    rw [showToast_of_none w message type hf]
    exact lookupOk_append _ _ h (Or.inl rfl)

/-- Every operation keeps the first toast container, if there is one, a body
element: toasts go into it, and what is appended to the body comes after it. -/
theorem lookupOk_step (w : World) (op : Op) (h : lookupOk w.doc.body = true) :
    lookupOk (step w op).doc.body = true := by
  cases op with
  | input value =>
    have : (step w (.input value)).doc.body = w.doc.body := by
      rcases onInput_cases w value with ⟨-, he⟩ | ⟨cl, -, -, he⟩ | ⟨cl, -, -, -, he⟩ |
        ⟨cl, -, -, -, he⟩ <;> simp only [step, he] <;> simp [hideSuggestions]
    rw [this]; exact h
  | click e =>
    have : (step w (.click e)).doc.body = w.doc.body := by
      simp only [step, onDocumentClick]
      split
      · rfl
      · split <;> rfl
    rw [this]; exact h
  | elapse dt =>
    exact foldl_fire_keeps (fun v => lookupOk v.doc.body = true)
      (fun v t hv => by
        unfold fire runCallback
        split
        · exact hv
        · exact lookupOk_removeToast _ _ hv)
      (dueTimers w (w.now + dt))
      { w with timers := w.timers.filter (fun tm => !decide (tm.due ≤ w.now + dt)) } h
  | showToast message type => exact lookupOk_showToast w message type h
  | getOrCreateToastContainer =>
    simp only [step, getOrCreateToastContainer]
    split
    · exact h
    · exact lookupOk_append _ _ h (Or.inl rfl)
  | addToCart productId quantity =>
    rcases addToCart_world w productId quantity with e | ⟨r, e⟩ <;>
      rw [show step w (.addToCart productId quantity) = (addToCart w productId quantity).world
        from rfl, e] <;> exact h
  | settle outcome =>
    simp only [step]
    split
    · exact h
    · obtain ⟨v, message, type, he, -, -, -, -, -, -, -, hb⟩ :=
        addToCartSettled_eq_showToast { w with inFlight := w.inFlight - 1 } outcome
      rw [he]
      exact lookupOk_showToast v message type (by rw [hb]; exact h)
  | buyNow productId quantity =>
    rcases buyNow_world w productId quantity with e | ⟨p, q, e⟩ <;>
      rw [show step w (.buyNow productId quantity) = (buyNow w productId quantity).world
        from rfl, e]
    · exact h
    · exact lookupOk_append _ _ h (Or.inr rfl)
  | loadVehicleBrands =>
    have : (step w .loadVehicleBrands).doc.body = w.doc.body :=
      (loadVehicleBrands_frame w).2.2.2.2.2.2.2
    rw [this]; exact h
  | dismiss nid => exact lookupOk_removeToast w nid h

theorem lookupOk_run (page : Document) (ops : List Op) (h : lookupOk page.body = true) :
    lookupOk (run ops (boot page)).doc.body = true :=
  run_keeps (fun v => lookupOk v.doc.body = true) lookupOk_step ops _
    (by show lookupOk (boot page).doc.body = true
        rw [boot_body]; exact h)

/-! ## Containers hidden in toast markup -/

theorem mem_flatMap_modifyAt_filter (p : Child → Bool) (i : Nat) (l : List Element) :
    ∀ c ∈ (modifyAt (fun e => { e with children := e.children.filter p }) i l).flatMap
      (fun e => e.children), c ∈ l.flatMap (fun e => e.children) := by
  induction l generalizing i with
  | nil => cases i <;> simp [modifyAt]
  | cons x xs ih =>
    intro c hc
    cases i with
    | zero =>
      simp only [modifyAt, List.flatMap_cons, List.mem_append] at hc ⊢
      rcases hc with hc | hc
      · exact Or.inl (List.mem_filter.mp hc).1
      · exact Or.inr hc
    | succ k =>
      simp only [modifyAt, List.flatMap_cons, List.mem_append] at hc ⊢
      rcases hc with hc | hc
      · exact Or.inl hc
      · exact Or.inr (ih k c hc)

theorem noHidden_iff (d : Document) :
    noHidden d = true ↔ ∀ c ∈ allChildren d, noContainerInside c = true := by
  simp [noHidden, List.all_eq_true]

theorem noHidden_removeToast (w : World) (nid : Nat) (h : noHidden w.doc = true) :
    noHidden (removeToast w nid).doc = true := by
  rw [noHidden_iff] at h ⊢
  unfold removeToast
  split
  · intro c hc
    exact h c (mem_flatMap_modifyAt_filter _ _ _ c hc)
  · exact h

theorem noHidden_showToast (w : World) (message : String) (type : Option String)
    (h : noHidden w.doc = true) (hm : harmless message = true) :
    noHidden (showToast w message type).doc = true := by
  rw [noHidden_iff] at h ⊢
  have ht : noContainerInside (createToastElement w message (type.getD "info")).1 = true := by
    simpa [noContainerInside, createToastElement, harmless] using hm
  cases hf : findId "toast-container" w.doc.body with
  | some i =>
    rw [showToast_of_some w message type i hf]
    intro c hc
    have hp := flatMap_modifyAt_append (createToastElement w message (type.getD "info")).1 i
      w.doc.body (findId_lt hf)
    have := hp.mem_iff.mp hc
    simp only [List.mem_append, List.mem_singleton] at this
    rcases this with hc' | rfl
    · exact h c hc'
    · exact ht
  | none =>
    rw [showToast_of_none w message type hf]
    intro c hc
    simp only [allChildren, List.flatMap_append, List.flatMap_cons, List.flatMap_nil,
      List.append_nil, List.mem_append, List.mem_singleton] at hc
    rcases hc with hc' | rfl
    · exact h c hc'
    · exact ht

theorem noHidden_of_body (w v : World) (hb : v.doc.body = w.doc.body) (h : noHidden w.doc = true) :
    noHidden v.doc = true := by
  unfold noHidden allChildren at *
  rw [hb]; exact h

/-- An operation that shows only harmless messages hides no container in a
toast. -/
theorem noHidden_step (w : World) (op : Op) (h : noHidden w.doc = true)
    (hop : harmlessOp op = true) : noHidden (step w op).doc = true := by
  cases op with
  | input value =>
    refine noHidden_of_body w _ ?_ h
    rcases onInput_cases w value with ⟨-, he⟩ | ⟨cl, -, -, he⟩ | ⟨cl, -, -, -, he⟩ |
      ⟨cl, -, -, -, he⟩ <;> simp only [step, he] <;> simp [hideSuggestions]
  | click e =>
    refine noHidden_of_body w _ ?_ h
    simp only [step, onDocumentClick]
    split
    · rfl
    · split <;> rfl
  | elapse dt =>
    exact foldl_fire_keeps (fun v => noHidden v.doc = true)
      (fun v t hv => by
        unfold fire runCallback
        split
        · exact hv
        · exact noHidden_removeToast _ _ hv)
      (dueTimers w (w.now + dt))
      { w with timers := w.timers.filter (fun tm => !decide (tm.due ≤ w.now + dt)) } h
  | showToast message type => exact noHidden_showToast w message type h hop
  | getOrCreateToastContainer =>
    simp only [step, getOrCreateToastContainer]
    split
    · exact h
    · rw [noHidden_iff] at h ⊢
      intro c hc
      apply h
      simpa [allChildren, appendToBody, newToastContainer] using hc
  | addToCart productId quantity =>
    rcases addToCart_world w productId quantity with e | ⟨r, e⟩ <;>
      rw [show step w (.addToCart productId quantity) = (addToCart w productId quantity).world
        from rfl, e] <;> exact h
  | settle outcome =>
    simp only [step]
    split
    · exact h
    · cases outcome with
      | transportError =>
        exact noHidden_showToast _ _ _ h (by decide)
      | parseError =>
        exact noHidden_showToast _ _ _ h (by decide)
      | nullBody =>
        exact noHidden_showToast _ _ _ h (by decide)
      | json data =>
        simp only [addToCartSettled, addToCartThen]
        split
        · refine noHidden_showToast _ _ _ ?_ (by decide)
          exact noHidden_of_body w _ (updateCartCount_body _ _) h
        · rename_i hs
          refine noHidden_showToast _ _ _ h ?_
          simpa [harmlessOp, hs] using hop
  | buyNow productId quantity =>
    rcases buyNow_world w productId quantity with e | ⟨p, q, e⟩ <;>
      rw [show step w (.buyNow productId quantity) = (buyNow w productId quantity).world
        from rfl, e]
    · exact h
    · rw [noHidden_iff] at h ⊢
      intro c hc
      simp only [allChildren, appendToBody, List.flatMap_append, List.flatMap_cons,
        List.flatMap_nil, List.append_nil, List.mem_append, buyNowForm, List.mem_cons,
        List.mem_singleton, List.not_mem_nil, or_false] at hc
      rcases hc with hc | rfl | rfl | rfl
      · exact h c hc
      · rfl
      · rfl
      · rfl
  | loadVehicleBrands =>
    exact noHidden_of_body w _ (loadVehicleBrands_frame w).2.2.2.2.2.2.2 h
  | dismiss nid => exact noHidden_removeToast w nid h

theorem noHidden_run (ops : List Op) (w : World) (h : noHidden w.doc = true)
    (hops : ∀ op ∈ ops, harmlessOp op = true) : noHidden (run ops w).doc = true := by
  induction ops generalizing w with
  | nil => exact h
  | cons op ops ih =>
    exact ih (step w op) (noHidden_step w op h (hops op (List.mem_cons_self _ _)))
      (fun o ho => hops o (List.mem_cons_of_mem _ ho))

theorem hiddenCount_of_all (cs : List Child) (h : ∀ c ∈ cs, noContainerInside c = true) :
    hiddenCount cs = some 0 := by
  induction cs with
  | nil => rfl
  | cons c cs ih =>
    have hc := h c (List.mem_cons_self _ _)
    have hr := ih (fun x hx => h x (List.mem_cons_of_mem _ hx))
    cases hcc : c.content with
    | none => simp [noContainerInside, hcc] at hc
    | some tokens =>
      simp only [noContainerInside, hcc, Bool.not_eq_true', List.contains_eq_any_beq] at hc
      have hz : (idsOf tokens).count "toast-container" = 0 := by
        apply List.count_eq_zero_of_not_mem
        intro hm
        have : (idsOf tokens).any (fun a => "toast-container" == a) = true :=
          List.any_eq_true.mpr ⟨_, hm, by simp⟩
        rw [this] at hc
        cases hc
      simp [hiddenCount, hcc, hr, hz]

/-- With no container hidden in a toast, the elements with the id are the body
elements with the id. -/
theorem containerCount_of_noHidden (d : Document) (h : noHidden d = true) :
    containerCount d = some (topCount d) := by
  rw [noHidden_iff] at h
  simp [containerCount, hiddenCount_of_all _ h]

/-! ## The cart actions -/

/-- The state in which the response to an `addToCart` call arrives keeps the
first toast container a body element. -/
theorem lookupOk_after_addToCart (page : Document) (ops1 ops2 : List Op)
    (productId quantity : JsVal) (w1 : World) (hpage : lookupOk page.body = true)
    (hcall : addToCart (run ops1 (boot page)) productId quantity = .normal w1) :
    lookupOk (run ops2 w1).doc.body = true := by
  have h0 := lookupOk_run page ops1 hpage
  have h1 : lookupOk w1.doc.body = true := by
    have hw : (addToCart (run ops1 (boot page)) productId quantity).world = w1 := by
      rw [hcall]; rfl
    rcases addToCart_world (run ops1 (boot page)) productId quantity with e | ⟨r, e⟩
    · rw [← hw, e]; exact h0
    · rw [← hw, e]; exact h0
  exact run_keeps (fun v => lookupOk v.doc.body = true) lookupOk_step ops2 w1 h1

/-- C1: on a page whose toast container, if it has one, is a body element, in
every state with a cart badge in which the response to a call
`addToCart(productId, quantity)` that issued its request arrives (after any
operations before the call and in between), a success-flagged response with the
number `c` as `cart_count` sets the badge text to `c` as JavaScript prints it,
sets its display to `inline` when `c > 0` and to `none` otherwise (so for
`c = 0`, with the text `0`), and appends exactly one toast, of class
`alert-success`, whose nodes are the text `Product added to cart!` and the close
button, at the end of the toast container; no other element gains or loses a
child. -/
theorem addToCart_success_updates_badge_and_toasts (page : Document) (ops1 ops2 : List Op)
    (productId quantity : JsVal) (w1 : World) (b : Badge) (c : JsNumber) (m : Option String)
    (hpage : lookupOk page.body = true)
    (hcall : addToCart (run ops1 (boot page)) productId quantity = .normal w1)
    (hb : (run ops2 w1).doc.badge = some b) :
    let w := run ops2 w1
    let w' := addToCartSettled w (.json { success := true, cart_count := some c, message := m })
    let toast : Child :=
      { nid := w.nextNid
        tag := "div"
        className := "alert alert-success alert-dismissible fade show"
        cssText := "margin-bottom: 10px; min-width: 300px;"
        content := some
          [ .text "\n        Product added to cart!\n        ",
            .startTag "button"
              [("type", "button"), ("class", "btn-close"), ("data-bs-dismiss", "alert")],
            .endTag "button",
            .text "\n    " ]
        typeAttr := ""
        name := ""
        value := "" }
    w'.doc.badge =
      some { textContent := c.toJsString, display := if c.isPositive then "inline" else "none" } ∧
    (∀ neg e, c = .fin neg 0 e → w'.doc.badge = some { textContent := "0", display := "none" }) ∧
    childrenAt w'.doc (getOrCreateToastContainer w).1 =
      childrenAt w.doc (getOrCreateToastContainer w).1 ++ [toast] ∧
    (∀ j, j ≠ (getOrCreateToastContainer w).1 → childrenAt w'.doc j = childrenAt w.doc j) ∧
    lookupOk w'.doc.body = true := by
  intro w w' toast
  have hw' : w' = showToast (updateCartCount w (some c)) "Product added to cart!" (some "success") := by
    simp [w', addToCartSettled, addToCartThen]
  have hbody := updateCartCount_body w (some c)
  have hg := getOrCreateToastContainer_congr w (updateCartCount w (some c)) hbody
  have hs := showToast_doc (updateCartCount w (some c)) "Product added to cart!" (some "success")
  rw [hg] at hs
  obtain ⟨h1, h2, h3, -, -⟩ := hs
  have hnid : (updateCartCount w (some c)).nextNid = w.nextNid := by
    unfold updateCartCount; split <;> rfl
  have hlook : lookupOk w.doc.body = true :=
    lookupOk_after_addToCart page ops1 ops2 productId quantity w1 hpage hcall
  have hbadge : w'.doc.badge =
      some { textContent := c.toJsString, display := if c.isPositive then "inline" else "none" } := by
    rw [hw', h3]
    have hb' : w.doc.badge = some b := hb
    simp only [updateCartCount, hb']
  refine ⟨hbadge, ?_, ?_, ?_, ?_⟩
  · intro neg e hc
    rw [hbadge, hc]
    simp [JsNumber.toJsString, JsNumber.isPositive]
  · rw [hw', h1, childrenAt_congr _ _ hbody]
    have hp : parseFragment (toastMarkup "Product added to cart!") =
        some (plainToastNodes "Product added to cart!") :=
      parseFragment_plain _ (by decide)
    simp only [createToastElement, toastClassName, hnid, hp, toast]
    rfl
  · intro j hj
    rw [hw', h2 j hj, childrenAt_congr _ _ hbody]
  · rw [hw']
    exact lookupOk_showToast _ _ _ (by rw [hbody]; exact hlook)

set_option exponentiation.threshold 5000 in
set_option maxRecDepth 100000 in
/-- C1, at the example of the specification: `addToCart(42, 2)` answered with
`{success: true, cart_count: 5}` leaves the badge reading "5", shown. -/
theorem addToCart_success_witness :
    (addToCartSettled (addToCart (boot samplePage) (.num (.fin false 42 1074))
        (.num (.fin false 2 1074))).world
      (.json { success := true, cart_count := some (.fin false 5 1074), message := none })).doc.badge =
      some { textContent := "5", display := "inline" } := by
  have h := (addToCart_success_updates_badge_and_toasts samplePage [] []
    (.num (.fin false 42 1074)) (.num (.fin false 2 1074))
    (addToCart (boot samplePage) (.num (.fin false 42 1074)) (.num (.fin false 2 1074))).world
    { textContent := "0", display := "none" } (.fin false 5 1074) none rfl rfl rfl).1
  have e : (JsNumber.fin false 5 1074).toJsString = "5" := by decide
  have e2 : (JsNumber.fin false 5 1074).isPositive = true := by decide
  rw [e, e2] at h
  exact h

/-- C2 as stated fails: a failure-flagged response whose message carries
markup, here `<span>Out</span> of stock`, gives a toast whose nodes are a `span`
element and text, and whose text does not contain the message. -/
theorem addToCart_failure_counterexample :
    (childrenAt
      (addToCartSettled (addToCart (boot samplePage) (.str "42") (.str "2")).world
        (.json { success := false, cart_count := none,
                 message := some "<span>Out</span> of stock" })).doc 0).map
      (fun c => (c.content, containsText c "<span>Out</span> of stock")) =
      [ (some
          [ .text "\n        ",
            .startTag "span" [],
            .text "Out",
            .endTag "span",
            .text " of stock\n        ",
            .startTag "button"
              [("type", "button"), ("class", "btn-close"), ("data-bs-dismiss", "alert")],
            .endTag "button",
            .text "\n    " ],
         false) ] := by
  decide

/-- C2, amended: on a page whose toast container, if it has one, is a body
element, in every state in which the promise chain of a call
`addToCart(productId, quantity)` that issued its request settles without
success, the badge is left as it was and exactly one toast, of class
`alert-danger`, is appended at the end of the toast container (no other element
gains or loses a child).  Its nodes are what the HTML parser makes of the
template with the message; for a failure-flagged response whose message `m` is
plain text they are the text `m` and the close button, for one without a
message the text `undefined` and the close button, and when the transport or
the JSON parsing failed (or the body was `null`) the text `Error adding product
to cart` and the close button. -/
theorem addToCart_failure_keeps_badge_and_toasts_error (page : Document) (ops1 ops2 : List Op)
    (productId quantity : JsVal) (w1 : World) (hpage : lookupOk page.body = true)
    (hcall : addToCart (run ops1 (boot page)) productId quantity = .normal w1) :
    let w := run ops2 w1
    let errorToast : Option (List Token) → Child := fun nodes =>
      { nid := w.nextNid
        tag := "div"
        className := "alert alert-danger alert-dismissible fade show"
        cssText := "margin-bottom: 10px; min-width: 300px;"
        content := nodes
        typeAttr := ""
        name := ""
        value := "" }
    let carrying : String → Option (List Token) := fun text =>
      some
        [ .text ("\n        " ++ text ++ "\n        "),
          .startTag "button"
            [("type", "button"), ("class", "btn-close"), ("data-bs-dismiss", "alert")],
          .endTag "button",
          .text "\n    " ]
    let shows : World → Option (List Token) → Prop := fun w' nodes =>
      w'.doc.badge = w.doc.badge ∧
      childrenAt w'.doc (getOrCreateToastContainer w).1 =
        childrenAt w.doc (getOrCreateToastContainer w).1 ++ [errorToast nodes] ∧
      (∀ j, j ≠ (getOrCreateToastContainer w).1 → childrenAt w'.doc j = childrenAt w.doc j) ∧
      lookupOk w'.doc.body = true
    (∀ (count : Option JsNumber) (m : String),
      shows (addToCartSettled w (.json { success := false, cart_count := count, message := some m }))
        (parseFragment (toastMarkup m))) ∧
    (∀ (count : Option JsNumber) (m : String), isPlainText m = true →
      shows (addToCartSettled w (.json { success := false, cart_count := count, message := some m }))
        (carrying m)) ∧
    (∀ count : Option JsNumber,
      shows (addToCartSettled w (.json { success := false, cart_count := count, message := none }))
        (carrying "undefined")) ∧
    shows (addToCartSettled w .transportError) (carrying "Error adding product to cart") ∧
    shows (addToCartSettled w .parseError) (carrying "Error adding product to cart") ∧
    shows (addToCartSettled w .nullBody) (carrying "Error adding product to cart") := by
  intro w errorToast carrying shows
  have hlook : lookupOk w.doc.body = true :=
    lookupOk_after_addToCart page ops1 ops2 productId quantity w1 hpage hcall
  have key : ∀ (v : World) (text : String), v.doc = w.doc → v.nextNid = w.nextNid →
      shows (showToast v text (some "error")) (parseFragment (toastMarkup text)) := by
    intro v text hd hn
    have hbody : v.doc.body = w.doc.body := by rw [hd]
    have hs := showToast_doc v text (some "error")
    rw [getOrCreateToastContainer_congr w v hbody] at hs
    obtain ⟨h1, h2, h3, -, -⟩ := hs
    refine ⟨by rw [h3, hd], ?_, ?_, ?_⟩
    · rw [h1, hd]
      simp [createToastElement, toastClassName, hn, errorToast]
    · intro j hj
      rw [h2 j hj, hd]
    · exact lookupOk_showToast _ _ _ (by rw [hbody]; exact hlook)
  have plain : ∀ (v : World) (text : String), v.doc = w.doc → v.nextNid = w.nextNid →
      isPlainText text = true → shows (showToast v text (some "error")) (carrying text) := by
    intro v text hd hn ht
    have := key v text hd hn
    rw [parseFragment_plain text ht] at this
    exact this
  have hfail : ∀ (count : Option JsNumber) (m : Option String),
      addToCartSettled w (.json { success := false, cart_count := count, message := m })
        = showToast w (interpolate m) (some "error") := by
    intro count m
    simp [addToCartSettled, addToCartThen]
  refine ⟨fun count m => ?_, fun count m hm => ?_, fun count => ?_, ?_, ?_, ?_⟩
  · rw [hfail]; exact key w m rfl rfl
  · rw [hfail]; exact plain w m rfl rfl hm
  · rw [hfail]; exact plain w "undefined" rfl rfl (by decide)
  · exact plain _ _ rfl rfl (by decide)
  · exact plain _ _ rfl rfl (by decide)
  · exact plain _ _ rfl rfl (by decide)

/-- C2 at the example of the specification: `{success: false, message: "Out of
stock"}` leaves the badge as it was and shows one toast whose text contains
`Out of stock`. -/
theorem addToCart_failure_witness :
    (addToCartSettled (addToCart (boot samplePage) (.str "42") (.str "2")).world
      (.json { success := false, cart_count := none, message := some "Out of stock" })).doc.badge =
      some { textContent := "0", display := "none" } ∧
    (childrenAt
      (addToCartSettled (addToCart (boot samplePage) (.str "42") (.str "2")).world
        (.json { success := false, cart_count := none, message := some "Out of stock" })).doc 0).map
      (fun c => containsText c "Out of stock") = [true] := by
  have h := (addToCart_failure_keeps_badge_and_toasts_error samplePage [] [] (.str "42") (.str "2")
    (addToCart (boot samplePage) (.str "42") (.str "2")).world rfl rfl).2.1 none "Out of stock"
    (by decide)
  have h2 := congrArg (List.map (fun c => containsText c "Out of stock")) h.2.1
  exact ⟨h.1, Eq.trans h2 (by decide)⟩

/-- C10 as stated fails: `buyNow(Symbol(), 1)` throws at the `value` setter of
line 131; no form is appended or submitted. -/
theorem buyNow_counterexample :
    buyNow (boot samplePage) .symbol .undefined = .throw (boot samplePage) ∧
    (buyNow (boot samplePage) .symbol .undefined).world.submissions = [] ∧
    (buyNow (boot samplePage) .symbol .undefined).world.doc.body = [] :=
  ⟨rfl, rfl, rfl⟩

/-- C10, amended: for every productId and quantity that convert to a string
(every value but a Symbol or an object whose conversion throws),
`buyNow(productId, quantity)` appends to the body and submits exactly one form,
with method `POST`, action `/buy-now/` and exactly three hidden inputs in this
order: `csrfmiddlewaretoken` with the token read at load time (the empty string
when the page has no such field), `product_id` and `quantity` with the strings
the `value` setter makes of the arguments (`null` gives the empty string), the
quantity being 1 when omitted.  Nothing else is checked.  When a conversion
throws, `buyNow` throws and the page is as before. -/
theorem buyNow_appends_and_submits_form (page : Document) (ops : List Op)
    (productId quantity : JsVal) :
    let w := run ops (boot page)
    let hidden : Nat → String → String → Child := fun nid name value =>
      { nid := nid
        tag := "input"
        className := ""
        cssText := ""
        content := some []
        typeAttr := "hidden"
        name := name
        value := value }
    let form : String → String → Element := fun p q =>
      { tag := "form"
        idAttr := ""
        cssText := ""
        method := "POST"
        action := "/buy-now/"
        children :=
          [ hidden w.nextNid "csrfmiddlewaretoken" (page.csrfField.getD ""),
            hidden (w.nextNid + 1) "product_id" p,
            hidden (w.nextNid + 2) "quantity" q ] }
    let given : JsVal := if quantity = .undefined then .num (.fin false 1 1074) else quantity
    (∀ p q, productId.toValue = some p → given.toValue = some q →
      buyNow w productId quantity =
        .normal { w with
          nextNid := w.nextNid + 3
          doc := { w.doc with body := w.doc.body ++ [form p q] }
          submissions := w.submissions ++ [form p q] }) ∧
    (productId.toValue = none ∨ given.toValue = none → buyNow w productId quantity = .throw w) ∧
    (productId.toValue = none ↔ productId = .symbol ∨ productId = .object none) := by
  intro w hidden form given
  have ht : w.csrfToken = page.csrfField.getD "" := by
    show (run ops (boot page)).csrfToken = _
    rw [run_csrfToken, boot_csrfToken]
  have hgiven : quantity.orDefault (.num .one) = given := rfl
  refine ⟨?_, ?_, ?_⟩
  · intro p q hp hq
    simp only [buyNow, hgiven, hp, hq]
    simp [buyNowForm, hiddenInput, appendToBody, ht, form, hidden]
  · intro h
    simp only [buyNow, hgiven]
    rcases h with h | h
    · simp [h]
    · cases hp : productId.toValue <;> simp [h]
  · cases productId <;> simp [JsVal.toValue, JsVal.toJsString]

set_option exponentiation.threshold 5000 in
set_option maxRecDepth 100000 in
/-- C10 at concrete calls on the sample page: `buyNow(42)` submits the token
`tok`, `42` and `1`; `buyNow(1e21, null)` submits `1e+21` and the empty string. -/
theorem buyNow_witness :
    ((buyNow (boot samplePage) (.num (.fin false 42 1074)) .undefined).world.submissions.map
      (fun f => f.children.map (fun c => (c.name, c.value)))) =
      [[("csrfmiddlewaretoken", "tok"), ("product_id", "42"), ("quantity", "1")]] ∧
    ((buyNow (boot samplePage) (.num (.fin false 7629394531250000 1091)) .null).world.submissions.map
      (fun f => f.children.map (fun c => (c.name, c.value)))) =
      [[("csrfmiddlewaretoken", "tok"), ("product_id", "1e+21"), ("quantity", "")]] := by
  have h1 := (buyNow_appends_and_submits_form samplePage [] (.num (.fin false 42 1074))
    .undefined).1 "42" "1" (by decide) (by decide)
  have h2 := (buyNow_appends_and_submits_form samplePage []
    (.num (.fin false 7629394531250000 1091)) .null).1 "1e+21" "" (by decide) (by decide)
  exact
    ⟨Eq.trans (congrArg (fun c : Completion => c.world.submissions.map
        (fun f => f.children.map (fun c => (c.name, c.value)))) h1) rfl,
      Eq.trans (congrArg (fun c : Completion => c.world.submissions.map
        (fun f => f.children.map (fun c => (c.name, c.value)))) h2) rfl⟩

/-! ## The search field -/

/-- C3: in a burst of input events on the search field in which each event
comes less than 300ms after the previous one, only the fetch of the last event
fires.  After any operations `ops` on a page with a search input, let the burst
be a first event with value `v0` followed by the events `evs` (gap, value).
Then (1) once 300ms or more have passed after the last event, the calls made to
`fetchSearchSuggestions` since the burst began are exactly the one the last
event scheduled, with that event's trimmed value and 300ms after it (and none
when that trimmed value is shorter than 2, for which nothing is scheduled);
(2) at every moment of the burst at most one suggestion fetch is pending;
(3) every event of the burst removes each suggestion fetch that was pending when
it arrived. -/
theorem debounce_only_last_fetch_fires (page : Document) (ops : List Op) (v0 : String)
    (evs : List (Nat × String)) (T : Nat) (hi : page.searchInput = true)
    (hg : ∀ e ∈ evs, e.1 < 300) (hT : 300 ≤ T) :
    let w := run ops (boot page)
    let burst := typing (onInput w v0) evs
    (elapse burst T).fetchCalls =
      w.fetchCalls ++
        (if 2 ≤ jsLength (jsTrim (lastValue v0 evs)) then
          [(burst.now + 300, jsTrim (lastValue v0 evs))]
        else []) ∧
    (∀ pre post dt, evs = pre ++ post →
      (pendingFetches (elapse (typing (onInput w v0) pre) dt)).length ≤ 1) ∧
    (∀ t ∈ w.timers, (fetchOf t).isSome → t ∉ (onInput w v0).timers) ∧
    (∀ pre g v post, evs = pre ++ (g, v) :: post →
      ∀ t ∈ (elapse (typing (onInput w v0) pre) g).timers, (fetchOf t).isSome →
        t ∉ (onInput (elapse (typing (onInput w v0) pre) g) v).timers) := by
  intro w burst
  have hok : TimersOk w := timersOk_run page ops
  have hs : w.search.isSome = true := by
    have := (wired_run page ops).1
    rw [hi] at this
    exact this
  have hok1 := timersOk_onInput w v0 hok
  have hs1 := onInput_search_isSome w v0 hs
  refine ⟨typing_fetchCalls evs w v0 hok hs hg T hT, ?_, onInput_cancels w v0 hok hs, ?_⟩
  · intro pre post dt _
    exact (timersOk_elapse _ dt (typing_keeps _ pre hok1 hs1).1).2.2
  · intro pre g v post _
    obtain ⟨hk, hks⟩ := typing_keeps _ pre hok1 hs1
    exact onInput_cancels _ v (timersOk_elapse _ g hk) (by simpa using hks)

/-- C3 at a concrete burst: "a", then "ab" 100ms later, then " abc " 200ms
later; 300ms after the last event the one call made is for "abc". -/
theorem debounce_witness :
    (elapse (typing (onInput (boot samplePage) "a") [(100, "ab"), (200, " abc ")]) 300).fetchCalls =
      [(600, "abc")] :=
  (debounce_only_last_fetch_fires samplePage [] "a" [(100, "ab"), (200, " abc ")] 300 rfl
    (by decide) (by decide)).1

/-- C4: with the search input and the suggestion panel present, an input event
whose trimmed value is shorter than 2 (as it is whenever the value itself is
shorter than 2) leaves the panel hidden, schedules nothing and leaves no
suggestion fetch pending; and in general the event leaves a suggestion fetch
scheduled exactly when the trimmed value has length at least 2: the one for
that trimmed value, due 300ms later. -/
theorem short_input_hides_panel_and_schedules_nothing (page : Document) (p0 : Panel)
    (ops : List Op) (value : String) (hi : page.searchInput = true)
    (hp : page.searchSuggestions = some p0) :
    let w := run ops (boot page)
    let w' := onInput w value
    (jsLength value < 2 → jsLength (jsTrim value) < 2) ∧
    (jsLength (jsTrim value) < 2 →
      w'.doc.searchSuggestions = some { display := "none" } ∧
      pendingFetches w' = [] ∧
      w'.nextTimer = w.nextTimer ∧
      (∀ t ∈ w'.timers, t ∈ w.timers)) ∧
    pendingFetches w' =
      (if 2 ≤ jsLength (jsTrim value) then [(w.now + 300, jsTrim value)] else []) ∧
    (w'.nextTimer = w.nextTimer + 1 ↔ 2 ≤ jsLength (jsTrim value)) := by
  intro w w'
  have hok : TimersOk w := timersOk_run page ops
  obtain ⟨hw1, hw2, hw3⟩ := wired_run page ops
  have hs : w.search.isSome = true := by rw [hi] at hw1; exact hw1
  obtain ⟨cl, hcl⟩ := Option.isSome_iff_exists.mp hs
  have hdiv : cl.suggestionsDiv = true := by rw [hw2 cl hcl, hp]; rfl
  have hpanel : (run ops (boot page)).doc.searchSuggestions.isSome = true := by
    rw [hw3, hp]; rfl
  obtain ⟨p, hpw⟩ := Option.isSome_iff_exists.mp hpanel
  obtain ⟨hpend, -, -, -⟩ := onInput_pending w value cl hok hcl
  have hle := jsLength_jsTrim_le value
  refine ⟨fun h => by omega, ?_, hpend, ?_⟩
  · intro hl
    rcases onInput_cases w value with ⟨hn, -⟩ | ⟨cl', hcl', hl', -⟩ | ⟨cl', hcl', -, -, he⟩ |
      ⟨cl', hcl', -, hd, -⟩
    · rw [hcl] at hn; cases hn
    · omega
    · rw [hcl] at hcl'; cases hcl'
      have hl' : ¬ 2 ≤ jsLength (jsTrim value) := by omega
      refine ⟨?_, by simpa [hl'] using hpend, ?_, ?_⟩
      · show (onInput w value).doc.searchSuggestions = _
        rw [he]
        simp [hideSuggestions, show w.doc.searchSuggestions = some p from hpw]
      · show (onInput w value).nextTimer = _
        rw [he]; simp
      · show ∀ t ∈ (onInput w value).timers, t ∈ w.timers
        rw [he]
        exact clearTimeout_timers_subset w _
    · rw [hcl] at hcl'; cases hcl'
      rw [hdiv] at hd; cases hd
  · show (onInput w value).nextTimer = _ ↔ _
    rcases onInput_cases w value with ⟨hn, -⟩ | ⟨cl', -, hl', he⟩ | ⟨cl', -, hl', -, he⟩ |
      ⟨cl', -, hl', -, he⟩
    · rw [hcl] at hn; cases hn
    · rw [he]; simp [hl']
    · rw [he]
      simp only [clearTimeout_nextTimer]
      omega
    · rw [he]
      simp only [clearTimeout_nextTimer]
      omega

/-- C4 at a concrete event: on the sample page, after "ab" was typed, the
value " a " hides the panel and leaves nothing pending. -/
theorem short_input_witness :
    (onInput (run [.input "ab"] (boot samplePage)) " a ").doc.searchSuggestions =
        some { display := "none" } ∧
      pendingFetches (onInput (run [.input "ab"] (boot samplePage)) " a ") = [] :=
  let h := (short_input_hides_panel_and_schedules_nothing samplePage { display := "block" }
    [.input "ab"] " a " rfl rfl).2.1 (by decide)
  ⟨h.1, h.2.1⟩

/-- C5: once `initializeSearch` has run on a page with both the search input
and the suggestion panel, a click whose target lies in neither of them leaves
the panel hidden (and changes nothing else), and a click whose target lies in
the input or in the panel changes nothing, so the panel's visibility stays as
it was. -/
theorem click_outside_hides_suggestions (page : Document) (p0 : Panel) (ops : List Op)
    (e : ClickTarget) (hi : page.searchInput = true) (hp : page.searchSuggestions = some p0) :
    let w := run ops (boot page)
    (e.inSearchInput = false ∧ e.inSuggestions = false →
      onDocumentClick w e =
        { w with doc := { w.doc with searchSuggestions := some { display := "none" } } }) ∧
    (e.inSearchInput = true ∨ e.inSuggestions = true → onDocumentClick w e = w) := by
  intro w
  obtain ⟨hw1, hw2, hw3⟩ := wired_run page ops
  have hs : w.search.isSome = true := by rw [hi] at hw1; exact hw1
  obtain ⟨cl, hcl⟩ := Option.isSome_iff_exists.mp hs
  have hdiv : cl.suggestionsDiv = true := by rw [hw2 cl hcl, hp]; rfl
  have hpanel : (run ops (boot page)).doc.searchSuggestions.isSome = true := by
    rw [hw3, hp]; rfl
  obtain ⟨p, hpw⟩ := Option.isSome_iff_exists.mp hpanel
  have hpw' : w.doc.searchSuggestions = some p := hpw
  refine ⟨?_, ?_⟩
  · rintro ⟨h1, h2⟩
    simp [onDocumentClick, hcl, hdiv, h1, h2, hideSuggestions, hpw']
  · intro h
    rcases h with h | h <;> simp [onDocumentClick, hcl, h]

/-- C5 at concrete clicks on the sample page: a click elsewhere hides the
shown panel, a click inside the panel leaves it shown. -/
theorem click_witness :
    (onDocumentClick (boot samplePage) { inSearchInput := false, inSuggestions := false }).doc.searchSuggestions =
        some { display := "none" } ∧
      (onDocumentClick (boot samplePage) { inSearchInput := false, inSuggestions := true }).doc.searchSuggestions =
        some { display := "block" } :=
  let h := click_outside_hides_suggestions samplePage { display := "block" } []
    { inSearchInput := false, inSuggestions := false } rfl rfl
  let h' := click_outside_hides_suggestions samplePage { display := "block" } []
    { inSearchInput := false, inSuggestions := true } rfl rfl
  ⟨congrArg (fun v : World => v.doc.searchSuggestions) (h.1 ⟨rfl, rfl⟩),
    congrArg (fun v : World => v.doc.searchSuggestions) (h'.2 (Or.inr rfl))⟩

/-! ## The toast container -/

/-- C7 as stated fails: on the sample page, which has no toast container, one
call of `showToast` with the message `<div id="toast-container"></div>` leaves
two elements with the id, the container and the element inside the toast. -/
theorem toast_container_counterexample :
    noHidden samplePage = true ∧
    containerCount samplePage = some 0 ∧
    containerCount (showToast (boot samplePage) "<div id=\"toast-container\"></div>" none).doc =
      some 2 := by
  decide

/-- C7, amended: on a page with at most one element of id `toast-container`,
a body element and not a node inside an existing toast, and as long as no
toast message carries markup that creates an element with that id (plain-text
messages never do), there is at most one at any time, whatever operations run.
A call of `getOrCreateToastContainer` leaves exactly one: it creates the
element only when there was none (appending it to the body) and otherwise
changes nothing; `showToast`, which makes that call, leaves exactly one as
well.  After the first call any further operations keep exactly one, and every
later call creates nothing and returns the same element. -/
theorem toast_container_is_unique (page : Document) (ops ops' : List Op) (message : String)
    (type : Option String) (k : Nat) (hpage : noHidden page = true)
    (hcount : containerCount page = some k) (hk : k ≤ 1)
    (hops : ∀ op ∈ ops, harmlessOp op = true) (hops' : ∀ op ∈ ops', harmlessOp op = true)
    (hm : harmless message = true) :
    let w := run ops (boot page)
    let r := getOrCreateToastContainer w
    let w' := run ops' r.2
    (∃ n, containerCount w.doc = some n ∧ n ≤ 1) ∧
    containerCount r.2.doc = some 1 ∧
    (containerCount w.doc = some 1 → r.2 = w) ∧
    (containerCount w.doc = some 0 →
      r = (w.doc.body.length, { w with doc := { w.doc with body := w.doc.body ++ [newToastContainer] } })) ∧
    containerCount (showToast w message type).doc = some 1 ∧
    getOrCreateToastContainer (showToast w message type) = (r.1, showToast w message type) ∧
    containerCount w'.doc = some 1 ∧
    getOrCreateToastContainer w' = (r.1, w') ∧
    (∀ text : String, isPlainText text = true → harmless text = true) := by
  intro w r w'
  have htop : topCount page ≤ 1 := by
    rw [containerCount_of_noHidden page hpage] at hcount
    simp only [Option.some.injEq] at hcount
    omega
  have hboot : noHidden (boot page).doc = true := by
    have hb := boot_body page
    unfold noHidden allChildren at hpage ⊢
    rw [hb]; exact hpage
  have hnw : noHidden w.doc = true := noHidden_run ops _ hboot hops
  have hnr : noHidden r.2.doc = true := noHidden_step w .getOrCreateToastContainer hnw rfl
  have hns : noHidden (showToast w message type).doc = true :=
    noHidden_showToast w message type hnw hm
  have hnw' : noHidden w'.doc = true := noHidden_run ops' _ hnr hops'
  have hle : topCount w.doc ≤ 1 := topCount_run_le page ops htop
  obtain ⟨hc1, hf1⟩ := getOrCreateToastContainer_spec w hle
  have hrun := container_run ops' r.2 r.1 ⟨hc1, hf1⟩
  have hshow := container_step r.2 (.showToast message type) r.1 ⟨hc1, hf1⟩
  have hsame : showToast r.2 message type = showToast w message type := by
    show showToast (getOrCreateToastContainer w).2 message type = _
    simp only [getOrCreateToastContainer, getElementById]
    cases hf : findId "toast-container" w.doc.body with
    | some i => rfl
    | none =>
      have hf' : findId "toast-container" (w.doc.body ++ [newToastContainer]) =
          some w.doc.body.length := findId_append_of_none _ _ _ hf rfl
      rw [showToast_of_none w message type hf]
      simp only [appendToBody]
      rw [showToast_of_some _ message type w.doc.body.length hf']
      simp [appendChild, modifyAt_append_length, createToastElement, newToastContainer]
  have hshow' : topCount (showToast w message type).doc = 1 ∧
      findId "toast-container" (showToast w message type).doc.body = some r.1 := by
    rw [← hsame]; exact hshow
  rw [containerCount_of_noHidden _ hnw, containerCount_of_noHidden _ hnr,
    containerCount_of_noHidden _ hns, containerCount_of_noHidden _ hnw']
  refine ⟨⟨_, rfl, hle⟩, by rw [hc1], ?_, ?_, by rw [hshow'.1], ?_, by rw [hrun.1], ?_,
    harmless_of_plain⟩
  · intro hone
    simp only [Option.some.injEq] at hone
    show (getOrCreateToastContainer w).2 = w
    simp only [getOrCreateToastContainer, getElementById]
    cases hf : findId "toast-container" w.doc.body with
    | some i => rfl
    | none =>
      exfalso
      have hn := (findId_eq_none_iff _ _).mp hf
      rw [topCount_eq, bodyIds, List.count_eq_zero_of_not_mem hn] at hone
      cases hone
  · intro hzero
    simp only [Option.some.injEq] at hzero
    show getOrCreateToastContainer w = _
    simp only [getOrCreateToastContainer, getElementById]
    cases hf : findId "toast-container" w.doc.body with
    | some i =>
      exfalso
      have hmem : "toast-container" ∈ bodyIds w.doc := by
        by_contra hn
        rw [bodyIds, ← findId_eq_none_iff] at hn
        rw [hn] at hf
        cases hf
      rw [topCount_eq] at hzero
      have := List.count_pos_iff.mpr hmem
      omega
    | none => rfl
  · simp [getOrCreateToastContainer, getElementById, hshow'.2]
  · simp [getOrCreateToastContainer, getElementById, hrun.2]

/-- C7 on the sample page, which has no container: after a first call, a
toast, a call, a purchase form and a toast with harmless markup there is exactly
one container, and a further call returns the element the first call
returned. -/
theorem toast_container_witness :
    containerCount (run [.showToast "a" none, .getOrCreateToastContainer,
        .buyNow (.str "7") .undefined, .showToast "<span>b</span>" (some "error")]
      (getOrCreateToastContainer (boot samplePage)).2).doc = some 1 ∧
    (getOrCreateToastContainer (run [.showToast "a" none, .getOrCreateToastContainer,
        .buyNow (.str "7") .undefined, .showToast "<span>b</span>" (some "error")]
      (getOrCreateToastContainer (boot samplePage)).2)).1 =
      (getOrCreateToastContainer (boot samplePage)).1 := by
  have h := toast_container_is_unique samplePage []
    [.showToast "a" none, .getOrCreateToastContainer, .buyNow (.str "7") .undefined,
      .showToast "<span>b</span>" (some "error")] "x" none 0 (by decide) (by decide) (by decide)
    (by decide) (by decide) (by decide)
  have h2 := congrArg Prod.fst h.2.2.2.2.2.2.2.1
  exact ⟨h.2.2.2.2.2.2.1, h2⟩

/-! ## Toasts -/

/-- C6 as stated fails: for the message `<span>X</span>` the element `showToast`
appends holds a `span` element with the text `X`, and its text does not contain
the message. -/
theorem showToast_counterexample :
    (childrenAt (showToast (boot samplePage) "<span>X</span>" (some "success")).doc 0).map
      (fun c => (c.content, containsText c "<span>X</span>")) =
      [ (some
          [ .text "\n        ",
            .startTag "span" [],
            .text "X",
            .endTag "span",
            .text "\n        ",
            .startTag "button"
              [("type", "button"), ("class", "btn-close"), ("data-bs-dismiss", "alert")],
            .endTag "button",
            .text "\n    " ],
         false) ] := by
  decide

/-- C6, amended: on a page whose nodes have distinct identities and whose toast
container, if it has one, is a body element, `showToast(X, severity)` adds
exactly one new element of class `alert-dismissible` at the end of the toast
container, after the toasts already there and leaving every other element as it
was; its nodes are what the HTML parser makes of the template with `X`, and for
every `X` that is plain text (no `<`, no `&`, no carriage return, no NUL) they
are the text `X` and the close button, so the element contains the text `X`.
It registers a timer 3000ms ahead.  Whenever that timer fires, in whatever later
state (the user may have dismissed the toast), the element is not in the
document afterwards; every other child of every element is still in place; and
if the element was already detached the callback changes nothing but the clock.
And the timer does fire: in every later state in which 3000ms or more have
passed, the element is out of the document. -/
theorem showToast_appends_and_expires (page : Document) (ops ops2 : List Op) (message : String)
    (type : Option String) (hwf : WellFormed page) (hpage : lookupOk page.body = true) :
    let w := run ops (boot page)
    let severity := type.getD "info"
    let toast : Child :=
      { nid := w.nextNid
        tag := "div"
        className :=
          "alert alert-" ++ (if severity = "error" then "danger" else severity) ++
            " alert-dismissible fade show"
        cssText := "margin-bottom: 10px; min-width: 300px;"
        content := parseFragment (toastMarkup message)
        typeAttr := ""
        name := ""
        value := "" }
    let i := (getOrCreateToastContainer w).1
    let w1 := showToast w message type
    let timer : Timer := { id := w.nextTimer, due := w.now + 3000, callback := .removeToast w.nextNid }
    let w2 := run ops2 w1
    attached w.doc toast.nid = false ∧
    childrenAt w1.doc i = childrenAt w.doc i ++ [toast] ∧
    (∀ j, j ≠ i → childrenAt w1.doc j = childrenAt w.doc j) ∧
    (isPlainText message = true →
      toast.content = some
        [ .text ("\n        " ++ message ++ "\n        "),
          .startTag "button"
            [("type", "button"), ("class", "btn-close"), ("data-bs-dismiss", "alert")],
          .endTag "button",
          .text "\n    " ] ∧
      containsText toast message = true) ∧
    w1.timers = w.timers ++ [timer] ∧
    attached (fire w2 timer).doc toast.nid = false ∧
    (∀ j, childrenAt (fire w2 timer).doc j =
      (childrenAt w2.doc j).filter (fun c => c.nid != toast.nid)) ∧
    (attached w2.doc toast.nid = false → fire w2 timer = { w2 with now := w.now + 3000 }) ∧
    (w.now + 3000 ≤ w2.now → attached w2.doc toast.nid = false) ∧
    lookupOk w2.doc.body = true := by
  intro w severity toast i w1 timer w2
  have hn : NidsOk w := nidsOk_run page ops hwf
  have hs : SearchIdOk w := searchIdOk_run page ops
  obtain ⟨d1, d2, -, -, -⟩ := showToast_doc w message type
  have hexp1 : Expiring timer w.nextNid w1 := by
    refine ⟨searchIdOk_step w (.showToast message type) hs,
      nidsOk_step w (.showToast message type) hn, ?_, Or.inl ⟨?_, ?_⟩⟩
    · show w.nextNid < (showToast w message type).nextNid
      rw [showToast_nextNid]; omega
    · show timer ∈ (showToast w message type).timers
      rw [showToast_timers]; simp [timer]
    · show (showToast w message type).now < w.now + 3000
      rw [showToast_now]; omega
  have hexp2 : Expiring timer w.nextNid w2 := expiring_run timer w.nextNid rfl ops2 w1 hexp1
  have hn2 : NidsOk w2 := hexp2.2.1
  have hfire : fire w2 timer = removeToast { w2 with now := w.now + 3000 } w.nextNid := rfl
  have hlook1 : lookupOk w1.doc.body = true :=
    lookupOk_showToast w message type (lookupOk_run page ops hpage)
  refine ⟨?_, ?_, d2, ?_, ?_, ?_, ?_, ?_, ?_, ?_⟩
  · rw [attached_eq_false_iff]
    intro hm
    exact absurd (hn.1 _ hm) (by simp [toast])
  · rw [d1]
    simp [createToastElement, toastClassName, toast, severity]
  · intro hplain
    have hp := parseFragment_plain message hplain
    refine ⟨hp, ?_⟩
    simp only [containsText, toast, hp]
    exact hasInfix_plainToast message
  · exact showToast_timers w message type
  · rw [attached_eq_false_iff]
    exact nids_fire_removeToast w2 timer w.nextNid hn2 rfl
  · intro j
    rw [hfire]
    exact childrenAt_removeToast { w2 with now := w.now + 3000 } w.nextNid hn2.2 j
  · intro hdet
    rw [hfire]
    exact removeToast_of_not_attached { w2 with now := w.now + 3000 } w.nextNid hdet
  · intro hlate
    rcases hexp2.2.2.2 with ⟨-, hdue⟩ | hdet
    · have : w2.now < w.now + 3000 := hdue
      omega
    · exact hdet
  · exact run_keeps (fun v => lookupOk v.doc.body = true) lookupOk_step ops2 w1 hlook1

/-- C6 on the sample page: `showToast("X", "success")` puts one toast into the
(new) container, with the text `X` and the close button; after a second toast, a
dismissal of the second by the user and 3000ms, the first is out of the document
and so is the second. -/
theorem showToast_witness :
    WellFormed samplePage ∧
    (childrenAt (showToast (boot samplePage) "X" (some "success")).doc 0).map
      (fun c => (c.className, c.content, containsText c "X")) =
      [ ("alert alert-success alert-dismissible fade show",
         some
          [ .text "\n        X\n        ",
            .startTag "button"
              [("type", "button"), ("class", "btn-close"), ("data-bs-dismiss", "alert")],
            .endTag "button",
            .text "\n    " ],
         true) ] ∧
    attached (run [.showToast "Y" none, .dismiss 1, .elapse 3000]
      (showToast (boot samplePage) "X" (some "success"))).doc 0 = false ∧
    allChildren (run [.showToast "Y" none, .dismiss 1, .elapse 3000]
      (showToast (boot samplePage) "X" (some "success"))).doc = [] := by
  have hwf : WellFormed samplePage := by unfold WellFormed; decide
  have h := showToast_appends_and_expires samplePage []
    [.showToast "Y" none, .dismiss 1, .elapse 3000] "X" (some "success") hwf rfl
  have h1 := congrArg (List.map (fun c => (c.className, c.content, containsText c "X"))) h.2.1
  exact ⟨hwf, Eq.trans h1 (by decide), h.2.2.2.2.2.2.2.2.1 (by decide), by decide⟩

/-! ## Toast classes -/

/-- C8: the toast `createToastElement(message, t)` builds has the class
`alert-danger` when `t` is `error` and `alert-` followed by `t` unchanged for
every other `t` (`alert-info` for `info`, `alert-success` for `success`), and
`showToast` called without a severity behaves as with `info`. -/
theorem createToastElement_class_of_severity (w : World) (message : String) :
    (createToastElement w message "error").1.className =
      "alert alert-danger alert-dismissible fade show" ∧
    (∀ t : String, t ≠ "error" →
      (createToastElement w message t).1.className =
        "alert alert-" ++ t ++ " alert-dismissible fade show") ∧
    (createToastElement w message "info").1.className =
      "alert alert-info alert-dismissible fade show" ∧
    (createToastElement w message "success").1.className =
      "alert alert-success alert-dismissible fade show" ∧
    showToast w message none = showToast w message (some "info") := by
  refine ⟨rfl, fun t ht => ?_, rfl, rfl, rfl⟩
  simp [createToastElement, toastClassName, ht]

/-! ## The brand grid -/

set_option maxRecDepth 100000 in
/-- C9: with a `brandGrid` container present, `loadVehicleBrands()` replaces its
content, whatever it was, with markup of exactly six tiles in the order
TOYOTA(1), HONDA(2), MITSUBISHI(3), NISSAN(4), MAZDA(5), LEXUS(6): the click
handlers of the tiles are `selectBrand(id, name)` with the records' ids and
names in that order, and the labels show the names; nothing else changes.  With
the container absent nothing changes at all. -/
theorem loadVehicleBrands_renders_six_tiles (w : World) :
    (∀ g : Grid, w.doc.brandGrid = some g →
      loadVehicleBrands w =
        { w with doc := { w.doc with brandGrid := some { innerHTML := brandsHtml } } }) ∧
    (w.doc.brandGrid = none → loadVehicleBrands w = w) ∧
    segments "<div class=\"vehicle-brand-item\" onclick=\"" "\"" brandsHtml =
      [ "selectBrand(1, \x27TOYOTA\x27)", "selectBrand(2, \x27HONDA\x27)",
        "selectBrand(3, \x27MITSUBISHI\x27)", "selectBrand(4, \x27NISSAN\x27)",
        "selectBrand(5, \x27MAZDA\x27)", "selectBrand(6, \x27LEXUS\x27)" ] ∧
    segments "<div class=\"fw-medium\">" "</div>" brandsHtml =
      ["TOYOTA", "HONDA", "MITSUBISHI", "NISSAN", "MAZDA", "LEXUS"] ∧
    segments "<img src=\"" "\"" brandsHtml =
      [ "/static/images/brands/toyota.png", "/static/images/brands/honda.png",
        "/static/images/brands/mitsubishi.png", "/static/images/brands/nissan.png",
        "/static/images/brands/mazda.png", "/static/images/brands/lexus.png" ] ∧
    (segments "<div class=\"vehicle-brand-item\"" ">" brandsHtml).length = 6 ∧
    (segments "<" ">" brandsHtml).length = 6 * 5 := by
  refine ⟨fun g hg => ?_, fun hn => ?_, by decide, by decide, by decide, by decide, by decide⟩
  · simp [loadVehicleBrands, hg]
  · simp [loadVehicleBrands, hn]

end GrandShop
